import Mathlib

/-!
Verification of the wikitext cleaning pipeline in `clean.py`.

Text is modelled as `List Char`.  Each Python regex substitution of the
pipeline is re-expressed as an explicit left-to-right scanner over the
character list, faithful to the (deterministic) matching behaviour of the
concrete pattern it embeds.  Scanners that can jump forward over a matched
region take a fuel argument initialised to `length + 1`; every step consumes
at least one input character, so the fuel is never exhausted.

Modelling notes, fixed once here:
* Python `\w` (`re.UNICODE`) is modelled by `isWordChar`, covering ASCII
  alphanumerics, the underscore and CJK Unified Ideographs - the character
  classes that occur in this corpus.
* Python `\s` / `str.strip` whitespace is modelled by `isSpace`, covering the
  ASCII whitespace characters and the ideographic space U+3000.
* `chr` is modelled by `chrOpt`; Lean `Char` excludes surrogate code points,
  so surrogate references count as decode failures.
* Float thresholds `len * 0.5` and `len * 0.3` are modelled by the exact
  integer comparisons `2*cjk < len` and `10*cjk < 3*len`; for lengths far
  below 2^50 the double rounding of `0.5`/`0.3` cannot cross an integer, so
  the comparisons agree with the Python ones.
-/

namespace WikiClean

/-- Characters of a string literal. -/
def strOf (s : String) : List Char := s.data

/-- `leadsWith pat s` : `pat` is an initial segment of `s`. -/
def leadsWith : List Char → List Char → Bool
  | [], _ => true
  | _ :: _, [] => false
  | p :: ps, c :: t => p == c && leadsWith ps t

/-- First index `j ≥ i` (absolute) at which `pat` starts in the suffix `s`
(which is the original text with its first `i` characters dropped). -/
def findFromAux (pat : List Char) : List Char → Nat → Option Nat
  | s, i =>
    if leadsWith pat s then some i
    else
      match s with
      | [] => none
      | _ :: t => findFromAux pat t (i + 1)

/-- `re.search` for a literal pattern: first occurrence of `pat` in `text`
at index `≥ i`. -/
def findFrom (pat text : List Char) (i : Nat) : Option Nat :=
  findFromAux pat (text.drop i) i

/-- Python slice `text[a:b]`. -/
def sliceTx (text : List Char) (a b : Nat) : List Char :=
  (text.take b).drop a

/-- Length of the maximal initial run of characters satisfying `p`. -/
def countLead (p : Char → Bool) : List Char → Nat
  | [] => 0
  | c :: t => if p c then countLead p t + 1 else 0

/-- Character in the CJK Unified Ideographs range (the class
`[一-鿿]` used throughout `clean.py`). -/
def isCJK (c : Char) : Bool :=
  decide (0x4e00 ≤ c.toNat) && decide (c.toNat ≤ 0x9fff)

/-- `len(re.findall(r'[一-鿿]', text))`. -/
def cjkCount (t : List Char) : Nat := t.countP isCJK

/-- Python whitespace (`\s`, `str.strip`), restricted to the characters of
this corpus: ASCII whitespace and the ideographic space. -/
def isSpace (c : Char) : Bool :=
  c == ' ' || c == '\t' || c == '\n' || c == '\r' ||
  c == '\x0b' || c == '\x0c' || c == '　'

/-- ASCII decimal digit (`\d` on this corpus); 48-57 are `'0'`-`'9'`. -/
def isDigitCh (c : Char) : Bool :=
  decide (48 ≤ c.toNat) && decide (c.toNat ≤ 57)

/-- ASCII letter (97-122 are `'a'`-`'z'`, 65-90 are `'A'`-`'Z'`). -/
def isAsciiLetter (c : Char) : Bool :=
  (decide (97 ≤ c.toNat) && decide (c.toNat ≤ 122)) ||
  (decide (65 ≤ c.toNat) && decide (c.toNat ≤ 90))

/-- Python `\w`, restricted to the character classes of this corpus. -/
def isWordChar (c : Char) : Bool :=
  isAsciiLetter c || isDigitCh c || c == '_' || isCJK c

/-- ASCII lower-casing, as Python `str.lower()` acts on the tag names and
keywords of this pipeline. -/
def lowerCh (c : Char) : Char :=
  if decide (65 ≤ c.toNat) && decide (c.toNat ≤ 90) then Char.ofNat (c.toNat + 32)
  else c

/-- Case-insensitive `leadsWith` (for `re.IGNORECASE` patterns). -/
def ciLeads : List Char → List Char → Bool
  | [], _ => true
  | _ :: _, [] => false
  | p :: ps, c :: t => p == lowerCh c && ciLeads ps t

/-- The apostrophe character (wikitext bold/italic marker). -/
def apo : Char := '\''

/-! ## 4.2 Entity unescaper (`unescape`, clean.py lines 38-53) -/

/-- Modelled from the spec: the fixed name-to-code-point table
(`html.entities.name2codepoint`, imported by `clean.py` from the Python
standard library and hence not part of `src/`).  The entries listed are the
standard HTML4 names relevant to this corpus; lookup of any other name
fails, which the pipeline treats as an undecodable reference. -/
def entityTable : List (List Char × Nat) :=
  [ (strOf "amp", 38), (strOf "lt", 60), (strOf "gt", 62),
    (strOf "quot", 34), (strOf "nbsp", 160), (strOf "copy", 169),
    (strOf "reg", 174), (strOf "deg", 176), (strOf "middot", 183),
    (strOf "laquo", 171), (strOf "raquo", 187), (strOf "times", 215),
    (strOf "divide", 247), (strOf "ndash", 8211), (strOf "mdash", 8212),
    (strOf "lsquo", 8216), (strOf "rsquo", 8217), (strOf "ldquo", 8220),
    (strOf "rdquo", 8221), (strOf "hellip", 8230), (strOf "bull", 8226) ]

/-- Name lookup in the entity table. -/
def lookupCp (n : List Char) : Option Nat :=
  match entityTable.find? (fun e => e.1 == n) with
  | some e => some e.2
  | none => none

/-- Hexadecimal digit (`a`-`f` are 97-102, `A`-`F` are 65-70). -/
def isHexDig (c : Char) : Bool :=
  isDigitCh c || (decide (97 ≤ c.toNat) && decide (c.toNat ≤ 102)) ||
  (decide (65 ≤ c.toNat) && decide (c.toNat ≤ 70))

/-- Numeric value of a (decimal or hexadecimal) digit. -/
def digitVal (c : Char) : Nat :=
  if isDigitCh c then c.toNat - 48
  else if decide (97 ≤ c.toNat) && decide (c.toNat ≤ 102) then c.toNat - 97 + 10
  else c.toNat - 65 + 10

/-- Digit of the given base. -/
def isBaseDig (base : Nat) (c : Char) : Bool :=
  if base == 16 then isHexDig c else isDigitCh c

/-- Helper for `parseIntPy`: `acc` is the value so far, `lastDig` whether the
previous character was a digit (underscores must sit between digits). -/
def parseIntPyAux (base : Nat) : List Char → Nat → Bool → Option Nat
  | [], acc, lastDig => if lastDig then some acc else none
  | c :: t, acc, lastDig =>
    if isBaseDig base c then parseIntPyAux base t (base * acc + digitVal c) true
    else if c == '_' && lastDig then parseIntPyAux base t acc false
    else none

/-- Python `int(s, base)` on a `\w`-only string: digits of the base with
optional single underscores between digits; anything else raises (here:
`none`). -/
def parseIntPy (base : Nat) (s : List Char) : Option Nat :=
  parseIntPyAux base s 0 false

/-- Python `chr`, restricted to Lean-representable scalar values: code
points beyond U+10FFFF raise in Python, and surrogates (which Python would
accept) are not Lean `Char`s, so both count as failures. -/
def chrOpt (n : Nat) : Option Char :=
  if n < 0xd800 ∨ (0xe000 ≤ n ∧ n < 0x110000) then some (Char.ofNat n) else none

/-- The `fixup` callback of `unescape`: `hashed` records whether the match
contained `#`; `w` is the `\w+` group.  `none` means the `try` body raised
and the reference is kept verbatim. -/
def fixupRef (hashed : Bool) (w : List Char) : Option Char :=
  if hashed then
    match w with
    | 'x' :: hs => (parseIntPy 16 hs).bind chrOpt
    | _ => (parseIntPy 10 w).bind chrOpt
  else (lookupCp w).bind chrOpt

/-- Match of the regex `&#?(\w+);` at the start of `t2` minus its leading
`&` (and `#` when `hashed`).  Returns the full matched chunk, the `fixup`
result and the rest of the text. -/
def parseRefBody (hashed : Bool) (t2 : List Char) :
    Option (List Char × Option Char × List Char) :=
  let w := t2.takeWhile isWordChar
  if w.isEmpty then none
  else
    match t2.dropWhile isWordChar with
    | ';' :: rest =>
      some ('&' :: (if hashed then '#' :: (w ++ [';']) else w ++ [';']),
            fixupRef hashed w, rest)
    | _ => none

/-- Match of `&#?(\w+);` at the start of `s`. -/
def parseRef (s : List Char) : Option (List Char × Option Char × List Char) :=
  match s with
  | '&' :: '#' :: t2 => parseRefBody true t2
  | '&' :: t1 => parseRefBody false t1
  | _ => none

/-- `re.sub("&#?(\w+);", fixup, text)` as a left-to-right scan. -/
def unescapeAux : Nat → List Char → List Char
  | 0, s => s
  | _ + 1, [] => []
  | f + 1, c :: t =>
    match parseRef (c :: t) with
    | some (_, some ch, rest) => ch :: unescapeAux f rest
    | some (chunk, none, rest) => chunk ++ unescapeAux f rest
    | none => c :: unescapeAux f t

/-- `unescape` (clean.py line 38): decode HTML character references. -/
def unescape (s : List Char) : List Char :=
  unescapeAux (s.length + 1) s

/-- Stage 11 of `clean_text` (lines 184-185): two explicit sequential
decoding passes. -/
def entityStage (t : List Char) : List Char :=
  unescape (unescape t)

/-! ## 4.1 Nested-delimiter stripper (`dropNested`, clean.py lines 55-105) -/

/-- The `while nest:` drain loop: repeatedly advance the close pointer,
decrementing `nest`, until `nest` is zero or no close marker remains.
Returns the final close end position. -/
def drainClose (text cl : List Char) : Nat → Nat → Nat
  | 0, endEnd => endEnd
  | nest + 1, endEnd =>
    match findFrom cl text endEnd with
    | some j => drainClose text cl nest (j + cl.length)
    | none => endEnd

/-- Result of the inner `while end.end() < next.start():` scan. -/
inductive ScanOut where
  /-- Malformed nesting: all recorded regions collapse to one span and the
  whole loop terminates (`matches = [span]; break` with `end = None`). -/
  | collapsed : Nat × Nat → ScanOut
  /-- `else` branch with no further close marker: the outer loop exits with
  the recorded regions. -/
  | finished : List (Nat × Nat) → ScanOut
  /-- Scan ended with the close at or past the next open: the outer loop
  continues, one more nesting level open (`nest += 1`).  Carries the new
  close end and nest count. -/
  | stepA : Nat → Nat → ScanOut
  /-- `else` branch: a region was recorded, `start` becomes the next open
  and the close pointer advanced past it.  Carries the new close end and
  the extended region list. -/
  | stepC : Nat → List (Nat × Nat) → ScanOut

/-- The inner scan of `dropNested`: `startIdx` is `start.start()`, `nstart`
and `nEnd` the next open marker's span, `endEnd` the current close end,
`nest` the depth counter and `ms` the recorded regions. -/
def innerScan (text cl : List Char) (startIdx nstart nEnd : Nat) :
    Nat → Nat → List (Nat × Nat) → ScanOut
  | endEnd, 0, ms =>
    if endEnd < nstart then
      let ms' := ms ++ [(startIdx, endEnd)]
      match findFrom cl text nEnd with
      | none => .finished ms'
      | some j => .stepC (j + cl.length) ms'
    else .stepA endEnd 0
  | endEnd, nest + 1, ms =>
    if endEnd < nstart then
      match findFrom cl text endEnd with
      | none =>
        match ms with
        | [] => .collapsed (startIdx, endEnd)
        | m0 :: _ => .collapsed (m0.1, endEnd)
      | some j => innerScan text cl startIdx nstart nEnd (j + cl.length) nest ms
    else .stepA endEnd (nest + 1)

/-- The outer `while end:` loop of `dropNested`; `nextEnd` is the position
after the current `next` open marker.  `none` only on fuel exhaustion,
which `dropLoop_some` below rules out for fuel `text.length + 1`. -/
def dropLoop (text op cl : List Char) :
    Nat → Nat → Nat → Nat → Nat → List (Nat × Nat) → Option (List (Nat × Nat))
  | 0, _, _, _, _, _ => none
  | fuel + 1, startIdx, nextEnd, endEnd, nest, ms =>
    match findFrom op text nextEnd with
    | none =>
      some (ms ++ [(startIdx, drainClose text cl nest endEnd)])
    | some nstart =>
      match innerScan text cl startIdx nstart (nstart + op.length) endEnd nest ms with
      | .collapsed span => some [span]
      | .finished ms' => some ms'
      | .stepA e' n' => dropLoop text op cl fuel startIdx (nstart + op.length) e' (n' + 1) ms
      | .stepC e' ms' => dropLoop text op cl fuel nstart (nstart + op.length) e' 0 ms'

/-- Concatenate the text strictly outside the recorded spans
(clean.py lines 99-105). -/
def removeSpans (text : List Char) : Nat → List (Nat × Nat) → List Char
  | start, [] => text.drop start
  | start, (s, e) :: rest => sliceTx text start s ++ removeSpans text e rest

/-- `dropNested` (clean.py line 55): remove nested delimited regions. -/
def dropNested (text op cl : List Char) : List Char :=
  match findFrom op text 0 with
  | none => text
  | some s0 =>
    match findFrom cl text (s0 + op.length) with
    | none => text
    | some c0 =>
      match dropLoop text op cl (text.length + 1)
              s0 (s0 + op.length) (c0 + cl.length) 0 [] with
      | some ms => removeSpans text 0 ms
      | none => text

/-! ## 4.3 Link resolver (clean.py lines 128-154) -/

/-- The namespace names whose links are removed entirely. -/
def dropNamespaces : List (List Char) :=
  [strOf "file", strOf "image", strOf "media", strOf "category"]

/-- `process_wikilink` (clean.py line 130): replacement for a matched
wikilink with target `link`, optional display text and trailing suffix. -/
def process_wikilink (link : List Char) (g2 : Option (List Char))
    (trail : List Char) : List Char :=
  let anchor := match g2 with
    | some a => if a = [] then link else a
    | none => link
  let colon := findFrom [':'] link 0
  match colon with
  | some i =>
    if 0 < i then
      if dropNamespaces.contains ((link.take i).map lowerCh) then []
      else anchor ++ trail
    else anchor ++ trail
  | none => anchor ++ trail

/-- Scan for group 2 of the wikilink regex (`[^[]*?` lazily up to `]]`):
returns the group and the text after the closing `]]`. -/
def wlG2 : List Char → Option (List Char × List Char)
  | [] => none
  | c :: t =>
    if leadsWith [']', ']'] (c :: t) then some ([], t.tail)
    else if c == '[' then none
    else match wlG2 t with
      | some (g, rest) => some (c :: g, rest)
      | none => none

/-- Scan for group 1 of the wikilink regex (`[^[]*?` lazily, with the
greedy optional `|`-part tried first at each stop).  Returns the target,
the optional display text and the text after `]]`. -/
def wlG1 : List Char → Option (List Char × Option (List Char) × List Char)
  | [] => none
  | c :: t =>
    if leadsWith [']', ']'] (c :: t) then some ([], none, t.tail)
    else if c == '|' then
      match wlG2 t with
      | some (g2, rest) => some ([], some g2, rest)
      | none =>
        match wlG1 t with
        | some (g1, g2, rest) => some (c :: g1, g2, rest)
        | none => none
    else if c == '[' then none
    else match wlG1 t with
      | some (g1, g2, rest) => some (c :: g1, g2, rest)
      | none => none

/-- Attempt to match `\[\[([^[]*?)(?:\|([^[]*?))?\]\](\w*)` at the start of
`s`; on success returns the replacement text and the rest of the input. -/
def tryWikiLink (s : List Char) : Option (List Char × List Char) :=
  match s with
  | '[' :: '[' :: r =>
    match wlG1 r with
    | some (g1, g2, rest) =>
      let trail := rest.takeWhile isWordChar
      some (process_wikilink g1 g2 trail, rest.dropWhile isWordChar)
    | none => none
  | _ => none

/-- `wikiLink.sub(process_wikilink, text)` (clean.py line 146). -/
def wikiLinkAux : Nat → List Char → List Char
  | 0, s => s
  | _ + 1, [] => []
  | f + 1, c :: t =>
    match tryWikiLink (c :: t) with
    | some (repl, rest) => repl ++ wikiLinkAux f rest
    | none => c :: wikiLinkAux f t

/-- Wikilink resolution pass. -/
def wikiLinkSub (s : List Char) : List Char :=
  wikiLinkAux (s.length + 1) s

/-- Scan for the residual-link regex body (`.*?\]\]`, no newlines):
number of characters through the closing `]]`, if it occurs on this line. -/
def residClose : List Char → Option Nat
  | [] => none
  | c :: t =>
    if leadsWith [']', ']'] (c :: t) then some 2
    else if c == '\n' then none
    else (residClose t).map (· + 1)

/-- Attempt `\[\[.*?\]\]` at the start of `s`: the rest after the closing
`]]`. -/
def tryResid (s : List Char) : Option (List Char) :=
  match s with
  | '[' :: '[' :: r => (residClose r).map (fun k => r.drop k)
  | _ => none

/-- `re.sub(r'\[\[.*?\]\]', '', text)` (clean.py line 149). -/
def residLinksAux : Nat → List Char → List Char
  | 0, s => s
  | _ + 1, [] => []
  | f + 1, c :: t =>
    match tryResid (c :: t) with
    | some rest => residLinksAux f rest
    | none => c :: residLinksAux f t

/-- Residual parameterized-link removal. -/
def residLinks (s : List Char) : List Char :=
  residLinksAux (s.length + 1) s

/-- `https://` as characters. -/
def httpsPat : List Char := ['h', 't', 't', 'p', 's', ':', '/', '/']
/-- `http://` as characters. -/
def httpPat : List Char := ['h', 't', 't', 'p', ':', '/', '/']

/-- Length of a `https?://` scheme at the start of `s`, if present. -/
def schemeLen (s : List Char) : Option Nat :=
  if leadsWith httpsPat s then some 8
  else if leadsWith httpPat s then some 7
  else none

/-- Attempt `\[https?://[^\s\]]+\s+([^\]]+)\]` at the start of `s`:
returns the label (group 1) and the rest after the closing bracket. -/
def tryExtLabel (s : List Char) : Option (List Char × List Char) :=
  match s with
  | '[' :: r =>
    match schemeLen r with
    | none => none
    | some sl =>
      let r1 := r.drop sl
      let url := countLead (fun c => !isSpace c && c != ']') r1
      if url == 0 then none
      else
        let r2 := r1.drop url
        let m := countLead isSpace r2
        match findFrom [']'] r2 0 with
        | none => none
        | some p =>
          if m == 0 || p < 2 then none
          else
            let w := min m (p - 1)
            some (sliceTx r2 w p, r2.drop (p + 1))
  | _ => none

/-- `re.sub(r'\[https?://[^\s\]]+\s+([^\]]+)\]', r'\1', text)`
(clean.py line 152). -/
def extLabelAux : Nat → List Char → List Char
  | 0, s => s
  | _ + 1, [] => []
  | f + 1, c :: t =>
    match tryExtLabel (c :: t) with
    | some (label, rest) => label ++ extLabelAux f rest
    | none => c :: extLabelAux f t

/-- Labelled external links become their label. -/
def extLabel (s : List Char) : List Char :=
  extLabelAux (s.length + 1) s

/-- Attempt `\[https?://[^\]]+\]` at the start of `s`: rest after the
closing bracket. -/
def tryExtBare (s : List Char) : Option (List Char) :=
  match s with
  | '[' :: r =>
    match schemeLen r with
    | none => none
    | some sl =>
      let r1 := r.drop sl
      match findFrom [']'] r1 0 with
      | none => none
      | some p => if p == 0 then none else some (r1.drop (p + 1))
  | _ => none

/-- `re.sub(r'\[https?://[^\]]+\]', '', text)` (clean.py line 153). -/
def extBareAux : Nat → List Char → List Char
  | 0, s => s
  | _ + 1, [] => []
  | f + 1, c :: t =>
    match tryExtBare (c :: t) with
    | some rest => extBareAux f rest
    | none => c :: extBareAux f t

/-- Bracketed external links without labels are removed. -/
def extBare (s : List Char) : List Char :=
  extBareAux (s.length + 1) s

/-- `re.sub(r'https?://[^\s\n]+', '', text)` (clean.py line 154). -/
def bareUrlAux : Nat → List Char → List Char
  | 0, s => s
  | _ + 1, [] => []
  | f + 1, c :: t =>
    match schemeLen (c :: t) with
    | some sl =>
      let run := countLead (fun d => !isSpace d) ((c :: t).drop sl)
      if run == 0 then c :: bareUrlAux f t
      else bareUrlAux f ((c :: t).drop (sl + run))
    | none => c :: bareUrlAux f t

/-- Bare URLs are removed. -/
def bareUrl (s : List Char) : List Char :=
  bareUrlAux (s.length + 1) s

/-! ## HTML comments (clean.py line 121) and 4.4 tag stripper (lines 158-174) -/

/-- Comment opener. -/
def cmtOpen : List Char := ['<', '!', '-', '-']
/-- Comment closer. -/
def cmtClose : List Char := ['-', '-', '>']

/-- `re.sub(r'<!--.*?-->', '', text, flags=re.DOTALL)`: each `<!--` with a
later `-->` is removed through the nearest such closer; an unclosed `<!--`
stays. -/
def removeCommentsAux : Nat → List Char → List Char
  | 0, s => s
  | _ + 1, [] => []
  | f + 1, c :: t =>
    if leadsWith cmtOpen (c :: t) then
      match findFrom cmtClose (c :: t) 4 with
      | some j => removeCommentsAux f ((c :: t).drop (j + 3))
      | none => c :: removeCommentsAux f t
    else c :: removeCommentsAux f t

/-- HTML comment removal. -/
def removeComments (s : List Char) : List Char :=
  removeCommentsAux (s.length + 1) s

/-- Tags whose whole element is discarded (clean.py lines 22-26), in the
order of the source's set literal.  (Python iterates this `set` in an
unspecified order; no result below depends on the order, since the
relevant inputs contain at most one tag pair.) -/
def discardList : List (List Char) :=
  [strOf "gallery", strOf "timeline", strOf "noinclude", strOf "pre",
   strOf "table", strOf "tr", strOf "td", strOf "th", strOf "caption",
   strOf "form", strOf "input", strOf "select", strOf "option",
   strOf "textarea", strOf "ul", strOf "li", strOf "ol", strOf "dl",
   strOf "dt", strOf "dd", strOf "menu", strOf "dir", strOf "ref",
   strOf "references", strOf "img", strOf "imagemap", strOf "source",
   strOf "math", strOf "code"]

/-- Tags kept as content (clean.py lines 29-33). -/
def ignoredList : List (List Char) :=
  [strOf "b", strOf "big", strOf "blockquote", strOf "center",
   strOf "cite", strOf "div", strOf "em", strOf "font", strOf "h1",
   strOf "h2", strOf "h3", strOf "h4", strOf "hiero", strOf "i",
   strOf "kbd", strOf "nowiki", strOf "p", strOf "plaintext", strOf "s",
   strOf "small", strOf "span", strOf "strike", strOf "strong",
   strOf "sub", strOf "sup", strOf "tt", strOf "u", strOf "var"]

/-- Self-closing tags (clean.py line 36). -/
def selfClosingList : List (List Char) :=
  [strOf "br", strOf "hr", strOf "nobr", strOf "ref", strOf "references"]

/-- Length of a match of `<\s*TAG\b[^>]*>` at the start of `s`. -/
def openTagLen (tag s : List Char) : Option Nat :=
  match s with
  | '<' :: r =>
    let w := countLead isSpace r
    let r1 := r.drop w
    if ciLeads tag r1 then
      let r2 := r1.drop tag.length
      match r2 with
      | d :: _ =>
        if isWordChar d then none
        else
          match findFrom ['>'] r2 0 with
          | some j => some (1 + w + tag.length + j + 1)
          | none => none
      | [] => none
    else none
  | _ => none

/-- Length of a match of `<\s*/\s*TAG>` at the start of `s`. -/
def closeTagLen (tag s : List Char) : Option Nat :=
  match s with
  | '<' :: r =>
    let w := countLead isSpace r
    match r.drop w with
    | '/' :: r1 =>
      let w2 := countLead isSpace r1
      let r2 := r1.drop w2
      if ciLeads tag r2 then
        match r2.drop tag.length with
        | '>' :: _ => some (1 + w + 1 + w2 + tag.length + 1)
        | _ => none
      else none
    | _ => none
  | _ => none

/-- Characters consumed by `<\s*/\s*TAG>` at the first position in `s`
where it matches (offset plus match length). -/
def findCloseIdx (tag : List Char) : List Char → Option Nat
  | [] => none
  | c :: t =>
    match closeTagLen tag (c :: t) with
    | some n => some n
    | none => (findCloseIdx tag t).map (· + 1)

/-- One discard-element pass: `re.sub(r'<\s*TAG\b[^>]*>.*?<\s*/\s*TAG>',
'', text, DOTALL|IGNORECASE)` (clean.py lines 159-161). -/
def discardTagAux (tag : List Char) : Nat → List Char → List Char
  | 0, s => s
  | _ + 1, [] => []
  | f + 1, c :: t =>
    match openTagLen tag (c :: t) with
    | some n =>
      match findCloseIdx tag ((c :: t).drop n) with
      | some k => discardTagAux tag f ((c :: t).drop (n + k))
      | none => c :: discardTagAux tag f t
    | none => c :: discardTagAux tag f t

/-- Discard-element pass for one tag. -/
def removeDiscardTag (tag s : List Char) : List Char :=
  discardTagAux tag (s.length + 1) s

/-- Stage 6: all discard elements removed. -/
def discardStage (s : List Char) : List Char :=
  discardList.foldl (fun t tag => removeDiscardTag tag t) s

/-- Length of a match of `<\s*TAG\b[^/]*/\s*>` at the start of `s`. -/
def selfCloseLen (tag s : List Char) : Option Nat :=
  match s with
  | '<' :: r =>
    let w := countLead isSpace r
    let r1 := r.drop w
    if ciLeads tag r1 then
      let r2 := r1.drop tag.length
      match r2 with
      | d :: _ =>
        if isWordChar d then none
        else
          match findFrom ['/'] r2 0 with
          | some j =>
            let r3 := r2.drop (j + 1)
            let w2 := countLead isSpace r3
            match r3.drop w2 with
            | '>' :: _ => some (1 + w + tag.length + j + 1 + w2 + 1)
            | _ => none
          | none => none
      | [] => none
    else none
  | _ => none

/-- One self-closing-tag pass (clean.py lines 164-166). -/
def selfCloseAux (tag : List Char) : Nat → List Char → List Char
  | 0, s => s
  | _ + 1, [] => []
  | f + 1, c :: t =>
    match selfCloseLen tag (c :: t) with
    | some n => selfCloseAux tag f ((c :: t).drop n)
    | none => c :: selfCloseAux tag f t

/-- Stage 7: self-closing tags removed. -/
def selfClosingStage (s : List Char) : List Char :=
  selfClosingList.foldl (fun t tag => selfCloseAux tag (t.length + 1) t) s

/-- Removal of the opening form of an ignored tag (clean.py line 170). -/
def ignoredOpenAux (tag : List Char) : Nat → List Char → List Char
  | 0, s => s
  | _ + 1, [] => []
  | f + 1, c :: t =>
    match openTagLen tag (c :: t) with
    | some n => ignoredOpenAux tag f ((c :: t).drop n)
    | none => c :: ignoredOpenAux tag f t

/-- Removal of the closing form of an ignored tag (clean.py line 171). -/
def ignoredCloseAux (tag : List Char) : Nat → List Char → List Char
  | 0, s => s
  | _ + 1, [] => []
  | f + 1, c :: t =>
    match closeTagLen tag (c :: t) with
    | some n => ignoredCloseAux tag f ((c :: t).drop n)
    | none => c :: ignoredCloseAux tag f t

/-- Stage 8: ignored tags unwrapped (content kept). -/
def ignoredStage (s : List Char) : List Char :=
  ignoredList.foldl
    (fun t tag =>
      let t1 := ignoredOpenAux tag (t.length + 1) t
      ignoredCloseAux tag (t1.length + 1) t1) s

/-- `re.sub(r'<[^>]*>', '', text)` (clean.py line 174). -/
def anyTagAux : Nat → List Char → List Char
  | 0, s => s
  | _ + 1, [] => []
  | f + 1, c :: t =>
    if c == '<' then
      match findFrom ['>'] t 0 with
      | some j => anyTagAux f (t.drop (j + 1))
      | none => c :: anyTagAux f t
    else c :: anyTagAux f t

/-- Stage 9: any remaining angle-bracket tag stripped. -/
def removeAllTags (s : List Char) : List Char :=
  anyTagAux (s.length + 1) s

/-! ## 4.5 Markup normalizer (clean.py lines 179-205) -/

/-- Five apostrophes. -/
def quote5 : List Char := List.replicate 5 apo
/-- Three apostrophes. -/
def quote3 : List Char := List.replicate 3 apo
/-- Two apostrophes. -/
def quote2 : List Char := List.replicate 2 apo

/-- Scan for the close of `'''''([^']*?)'''''`: content (no apostrophes)
and the rest after the closing run. -/
def biClose5 : List Char → Option (List Char × List Char)
  | [] => none
  | c :: t =>
    if leadsWith quote5 (c :: t) then some ([], (c :: t).drop 5)
    else if c == apo then none
    else match biClose5 t with
      | some (g, rest) => some (c :: g, rest)
      | none => none

/-- `re.sub(r"'''''([^']*?)'''''", r'\1', text)` (clean.py line 179). -/
def bi5Aux : Nat → List Char → List Char
  | 0, s => s
  | _ + 1, [] => []
  | f + 1, c :: t =>
    if leadsWith quote5 (c :: t) then
      match biClose5 ((c :: t).drop 5) with
      | some (g, rest) => g ++ bi5Aux f rest
      | none => c :: bi5Aux f t
    else c :: bi5Aux f t

/-- Bold-italic markers collapsed. -/
def bi5 (s : List Char) : List Char := bi5Aux (s.length + 1) s

/-- Scan for the close of `'''(.*?)'''` (no newline in the content). -/
def biClose3 : List Char → Option (List Char × List Char)
  | [] => none
  | c :: t =>
    if leadsWith quote3 (c :: t) then some ([], (c :: t).drop 3)
    else if c == '\n' then none
    else match biClose3 t with
      | some (g, rest) => some (c :: g, rest)
      | none => none

/-- `re.sub(r"'''(.*?)'''", r'\1', text)` (clean.py line 180). -/
def bi3Aux : Nat → List Char → List Char
  | 0, s => s
  | _ + 1, [] => []
  | f + 1, c :: t =>
    if leadsWith quote3 (c :: t) then
      match biClose3 ((c :: t).drop 3) with
      | some (g, rest) => g ++ bi3Aux f rest
      | none => c :: bi3Aux f t
    else c :: bi3Aux f t

/-- Bold markers collapsed. -/
def bi3 (s : List Char) : List Char := bi3Aux (s.length + 1) s

/-- `re.sub(r"''([^']*)''", r'\1', text)` (clean.py line 181). -/
def bi2Aux : Nat → List Char → List Char
  | 0, s => s
  | _ + 1, [] => []
  | f + 1, c :: t =>
    if leadsWith quote2 (c :: t) then
      let r := (c :: t).drop 2
      let g := r.takeWhile (fun d => d != apo)
      let r2 := r.drop g.length
      if leadsWith quote2 r2 then g ++ bi2Aux f (r2.drop 2)
      else c :: bi2Aux f t
    else c :: bi2Aux f t

/-- Italic markers collapsed. -/
def bi2 (s : List Char) : List Char := bi2Aux (s.length + 1) s

/-- `re.sub(r'-zh-[^:]*:[^-]*-', '', text)` (clean.py line 190). -/
def zhVarAux : Nat → List Char → List Char
  | 0, s => s
  | _ + 1, [] => []
  | f + 1, c :: t =>
    if leadsWith ['-', 'z', 'h', '-'] (c :: t) then
      let r := (c :: t).drop 4
      match findFrom [':'] r 0 with
      | some j =>
        let r2 := r.drop (j + 1)
        match findFrom ['-'] r2 0 with
        | some k => zhVarAux f (r2.drop (k + 1))
        | none => c :: zhVarAux f t
      | none => c :: zhVarAux f t
    else c :: zhVarAux f t

/-- Language-variant annotations (colon syntax) removed. -/
def zhVariant (s : List Char) : List Char := zhVarAux (s.length + 1) s

/-- `re.sub(r'-\{[^}]*\}-', '', text)` (clean.py line 191). -/
def dashBraceAux : Nat → List Char → List Char
  | 0, s => s
  | _ + 1, [] => []
  | f + 1, c :: t =>
    if leadsWith ['-', '\x7b'] (c :: t) then
      let r := (c :: t).drop 2
      match findFrom ['\x7d'] r 0 with
      | some j =>
        match r.drop (j + 1) with
        | '-' :: _ => dashBraceAux f (r.drop (j + 2))
        | _ => c :: dashBraceAux f t
      | none => c :: dashBraceAux f t
    else c :: dashBraceAux f t

/-- Language-variant annotations (dash-brace syntax) removed. -/
def dashBraceStrip (s : List Char) : List Char := dashBraceAux (s.length + 1) s

/-- `re.sub(r'\[\d+\]', '', text)` (clean.py line 194). -/
def citeNumAux : Nat → List Char → List Char
  | 0, s => s
  | _ + 1, [] => []
  | f + 1, c :: t =>
    if c == '[' then
      let d := countLead isDigitCh t
      if d == 0 then c :: citeNumAux f t
      else
        match t.drop d with
        | ']' :: r => citeNumAux f r
        | _ => c :: citeNumAux f t
    else c :: citeNumAux f t

/-- Bracketed numeric citation markers removed. -/
def citeNum (s : List Char) : List Char := citeNumAux (s.length + 1) s

/-- A character of the class `[\d\-X]`. -/
def isIsbnCh (c : Char) : Bool := isDigitCh c || c == '-' || c == 'X'

/-- `re.sub(r'ISBN\s*[\d\-X]+', '', text)` (clean.py line 195). -/
def isbnAux : Nat → List Char → List Char
  | 0, s => s
  | _ + 1, [] => []
  | f + 1, c :: t =>
    if leadsWith ['I', 'S', 'B', 'N'] (c :: t) then
      let r := (c :: t).drop 4
      let w := countLead isSpace r
      let run := countLead isIsbnCh (r.drop w)
      if run == 0 then c :: isbnAux f t
      else isbnAux f (r.drop (w + run))
    else c :: isbnAux f t

/-- ISBN tokens removed. -/
def isbnStrip (s : List Char) : List Char := isbnAux (s.length + 1) s

/-- A character of the class `[\d\./]`. -/
def isDoiCh (c : Char) : Bool := isDigitCh c || c == '.' || c == '/'

/-- `re.sub(r'DOI\s*:?\s*[\d\./]+', '', text)` (clean.py line 196). -/
def doiAux : Nat → List Char → List Char
  | 0, s => s
  | _ + 1, [] => []
  | f + 1, c :: t =>
    if leadsWith ['D', 'O', 'I'] (c :: t) then
      let r := (c :: t).drop 3
      let w := countLead isSpace r
      let r1 := r.drop w
      let r2 := match r1 with
        | ':' :: r2 => r2
        | _ => r1
      let colonLen := if r1.length == r2.length then 0 else 1
      let w2 := countLead isSpace r2
      let run := countLead isDoiCh (r2.drop w2)
      if run == 0 then c :: doiAux f t
      else doiAux f (r.drop (w + colonLen + w2 + run))
    else c :: doiAux f t

/-- DOI tokens removed. -/
def doiStrip (s : List Char) : List Char := doiAux (s.length + 1) s

/-- `re.sub(r'\d{4}\s*reprint\.?', '', text)` (clean.py line 197). -/
def reprintAux : Nat → List Char → List Char
  | 0, s => s
  | _ + 1, [] => []
  | f + 1, c :: t =>
    if ((c :: t).take 4).length == 4 && ((c :: t).take 4).all isDigitCh then
      let r := (c :: t).drop 4
      let w := countLead isSpace r
      let r1 := r.drop w
      if leadsWith (strOf "reprint") r1 then
        match r1.drop 7 with
        | '.' :: r2 => reprintAux f r2
        | r2 => reprintAux f r2
      else c :: reprintAux f t
    else c :: reprintAux f t

/-- Trailing reprint year stamps removed. -/
def reprintStrip (s : List Char) : List Char := reprintAux (s.length + 1) s

/-- Literal alternatives of the image-word pattern (clean.py line 200), in
source order; the numeric `\d+px` alternative sits between `upright` and
the CJK words and is handled separately in `tryImageWord`. -/
def imageAltsBefore : List (List Char) :=
  [strOf "thumb", strOf "thumbnail", strOf "right", strOf "left",
   strOf "center", strOf "frame", strOf "frameless", strOf "border",
   strOf "upright"]

/-- CJK alternatives of the image-word pattern, in source order. -/
def imageAltsAfter : List (List Char) :=
  [strOf "缩略图", strOf "右", strOf "左", strOf "居中", strOf "框架"]

/-- Word-boundary test on the right flank of a match whose last character
is a word character: the following character must be absent or non-word. -/
def rightBoundary : List Char → Bool
  | [] => true
  | d :: _ => !isWordChar d

/-- Try one literal image-word alternative (IGNORECASE): length consumed. -/
def tryImageAlt (alt s : List Char) : Option Nat :=
  if ciLeads alt s && rightBoundary (s.drop alt.length) then some alt.length
  else none

/-- Try the alternatives of the image-word pattern in source order at the
start of `s` (the left boundary has already been checked). -/
def tryImageWord (s : List Char) : Option Nat :=
  match imageAltsBefore.findSome? (fun alt => tryImageAlt alt s) with
  | some n => some n
  | none =>
    let d := countLead isDigitCh s
    if d != 0 && ciLeads (strOf "px") (s.drop d)
        && rightBoundary (s.drop (d + 2)) then some (d + 2)
    else
      imageAltsAfter.findSome? (fun alt => tryImageAlt alt s)

/-- Image-word scanner; `prevW` is the wordness of the previous character
(false at the start of the text), giving the `\b` left flank. -/
def imageWordsAux : Nat → Bool → List Char → List Char
  | 0, _, s => s
  | _ + 1, _, [] => []
  | f + 1, prevW, c :: t =>
    if !prevW && isWordChar c then
      match tryImageWord (c :: t) with
      | some n => imageWordsAux f false ((c :: t).drop n)
      | none => c :: imageWordsAux f (isWordChar c) t
    else c :: imageWordsAux f (isWordChar c) t

/-- `re.sub(image_words, '', text, flags=re.IGNORECASE)`
(clean.py lines 200-201). -/
def imageWords (s : List Char) : List Char := imageWordsAux (s.length + 1) false s

/-- `re.sub(r'\([^\)]*=[^\)]*\)', '', text)` (clean.py line 204). -/
def parenEqAux : Nat → List Char → List Char
  | 0, s => s
  | _ + 1, [] => []
  | f + 1, c :: t =>
    if c == '(' then
      match findFrom [')'] t 0 with
      | some j =>
        if (t.take j).contains '=' then parenEqAux f (t.drop (j + 1))
        else c :: parenEqAux f t
      | none => c :: parenEqAux f t
    else c :: parenEqAux f t

/-- Parenthesized assignment-like fragments removed. -/
def parenEq (s : List Char) : List Char := parenEqAux (s.length + 1) s

/-- A character of the class `[\w\-\+\*/^]`. -/
def isAssignCh (c : Char) : Bool :=
  isWordChar c || c == '-' || c == '+' || c == '*' || c == '/' || c == '^'

/-- Wordness of the head of a list (end of text counts as non-word). -/
def headWord : List Char → Bool
  | [] => false
  | d :: _ => isWordChar d

/-- Largest `m ≤ cap` such that a word boundary follows the `m`-th
character of the right-hand run `r`; tries `m` descending (the greedy
`{1,20}` with backtracking). -/
def bestRight (r : List Char) : Nat → Option Nat
  | 0 => none
  | m + 1 =>
    match r.get? m with
    | some cm =>
      if isWordChar cm != headWord (r.drop (m + 1)) then some (m + 1)
      else bestRight r m
    | none => bestRight r m

/-- Try `\b[\w\-\+\*/^]{1,20}\s*=\s*[\w\-\+\*/^]{1,20}\b` at the start of
`s` (`prevW` gives the left flank): length consumed and the wordness of
the last consumed character (the left flank for the continued scan). -/
def tryAssign (prevW : Bool) (s : List Char) : Option (Nat × Bool) :=
  match s with
  | [] => none
  | c :: _ =>
    if !isAssignCh c || (prevW == isWordChar c) then none
    else
      let L := countLead isAssignCh s
      if L == 0 || 20 < L then none
      else
        let r1 := s.drop L
        let w1 := countLead isSpace r1
        match r1.drop w1 with
        | '=' :: r2 =>
          let w2 := countLead isSpace r2
          let r3 := r2.drop w2
          let run := countLead isAssignCh r3
          match bestRight r3 (min run 20) with
          | some m => some (L + w1 + 1 + w2 + m, headWord (r3.drop (m - 1)))
          | none => none
        | _ => none

/-- Bare `token=token` fragment scanner. -/
def assignAux : Nat → Bool → List Char → List Char
  | 0, _, s => s
  | _ + 1, _, [] => []
  | f + 1, prevW, c :: t =>
    match tryAssign prevW (c :: t) with
    | some (n, lw) => assignAux f lw ((c :: t).drop n)
    | none => c :: assignAux f (isWordChar c) t

/-- `re.sub(r'\b[\w\-\+\*/^]{1,20}\s*=\s*[\w\-\+\*/^]{1,20}\b', '', text)`
(clean.py line 205). -/
def assignStrip (s : List Char) : List Char := assignAux (s.length + 1) false s

/-! ## Early truncation (clean.py lines 114-118) -/

/-- The alternatives of the `end_sections` regex
`(参见|注释|参考文献?|参考书目|外部链接|延伸阅读|相关条目|另见|参考资料|脚注)`,
as the prefixes they require at a match position: the optional `献?` makes
the third alternative match whenever `参考文` occurs. -/
def truncKws : List (List Char) :=
  [strOf "参见", strOf "注释", strOf "参考文", strOf "参考书目",
   strOf "外部链接", strOf "延伸阅读", strOf "相关条目", strOf "另见",
   strOf "参考资料", strOf "脚注"]

/-- Does the `end_sections` regex match at the start of `s`? -/
def truncKwAt (s : List Char) : Bool :=
  truncKws.any (fun k => leadsWith k s)

/-- `text[:match.start()]` for the first `end_sections` match: scan left to
right and cut at the first position where some alternative matches. -/
def truncAtEndSections : List Char → List Char
  | [] => []
  | c :: t => if truncKwAt (c :: t) then [] else c :: truncAtEndSections t

/-- Does any `end_sections` alternative occur anywhere in `s`? -/
def hasKw : List Char → Bool
  | [] => false
  | c :: t => truncKwAt (c :: t) || hasKw t

/-! ## 4.6 Line quality filter (clean.py lines 210-244) -/

/-- `text.split('\n')`. -/
def splitOnNL : List Char → List (List Char)
  | [] => [[]]
  | c :: t =>
    if c == '\n' then [] :: splitOnNL t
    else
      match splitOnNL t with
      | l :: ls => (c :: l) :: ls
      | [] => [[c]]

/-- Python `str.strip()`. -/
def stripBoth (s : List Char) : List Char :=
  ((s.dropWhile isSpace).reverse.dropWhile isSpace).reverse

/-- `re.match(r'=+.*?=+', line)`: an initial run of `=` and at least one
further `=` later in the line. -/
def isHeading (l : List Char) : Bool :=
  match l with
  | '=' :: t => t.contains '='
  | _ => false

/-- The three sentence-final punctuation marks of the caption heuristic. -/
def sentencePunct : List Char := ['。', '！', '？']

/-- Caption heuristic (clean.py lines 223-225): short, comma-heavy, no
sentence-final punctuation. -/
def looksCaption (l : List Char) : Bool :=
  decide (l.length < 200) && decide (2 < l.count '，') &&
  !(l.any (fun c => sentencePunct.contains c))

/-- List/bullet markers (clean.py line 238). -/
def bulletMarks : List Char := ['*', '#', ':', ';', '•', '·']

/-- `re.match(r'^\s*[*#:;•·]', line)`. -/
def startsBullet (l : List Char) : Bool :=
  match l.dropWhile isSpace with
  | c :: _ => bulletMarks.contains c
  | [] => false

/-- The per-line filter: `some line'` keeps the stripped line. -/
def lineKeep (raw : List Char) : Option (List Char) :=
  let l := stripBoth raw
  if l.isEmpty then none
  else if isHeading l then none
  else if looksCaption l then none
  else if decide (l.length < 15) then none
  else if decide (10 * cjkCount l < 3 * l.length) then none
  else if startsBullet l then none
  else some l

/-- Lines surviving the filter, in order. -/
def filterLines (lines : List (List Char)) : List (List Char) :=
  lines.filterMap lineKeep

/-- `' '.join(cleaned_lines)`. -/
def joinSp (ls : List (List Char)) : List Char :=
  (ls.intersperse [' ']).flatten

/-- Stages 16-17: line filtering and re-joining. -/
def lineStage (t : List Char) : List Char :=
  joinSp (filterLines (splitOnNL t))

/-! ## 4.7 Document quality gate (clean.py lines 248-267) -/

/-- The pause/sentence punctuation class `[，。！？；：]`. -/
def pausePunct : List Char := ['，', '。', '！', '？', '；', '：']

/-- `re.sub(r'\s*([，。！？；：])\s*', r'\1', text)` (clean.py line 249). -/
def punctAAux : Nat → List Char → List Char
  | 0, s => s
  | _ + 1, [] => []
  | f + 1, c :: t =>
    let w := countLead isSpace (c :: t)
    match (c :: t).drop w with
    | d :: r =>
      if pausePunct.contains d then d :: punctAAux f (r.dropWhile isSpace)
      else c :: punctAAux f t
    | [] => c :: punctAAux f t

/-- Whitespace around pause punctuation removed. -/
def punctA (s : List Char) : List Char := punctAAux (s.length + 1) s

/-- `re.sub(r'([。！？])\s*([^\s])', r'\1 \2', text)` (clean.py line 250). -/
def punctBAux : Nat → List Char → List Char
  | 0, s => s
  | _ + 1, [] => []
  | f + 1, c :: t =>
    if sentencePunct.contains c then
      let w := countLead isSpace t
      match t.drop w with
      | d :: r => c :: ' ' :: d :: punctBAux f r
      | [] => c :: punctBAux f t
    else c :: punctBAux f t

/-- One space enforced after sentence-final punctuation. -/
def punctB (s : List Char) : List Char := punctBAux (s.length + 1) s

/-- `re.sub(r'\s+', ' ', text)` (clean.py line 251). -/
def wsCollapseAux : Nat → List Char → List Char
  | 0, s => s
  | _ + 1, [] => []
  | f + 1, c :: t =>
    if isSpace c then ' ' :: wsCollapseAux f (t.dropWhile isSpace)
    else c :: wsCollapseAux f t

/-- Whitespace runs collapsed to one space. -/
def wsCollapse (s : List Char) : List Char := wsCollapseAux (s.length + 1) s

/-- The residual symbol class `[|{}()（）\[\]<>]` (clean.py line 254). -/
def residSymbols : List Char :=
  ['|', '\x7b', '\x7d', '(', ')', '（', '）', '[', ']', '<', '>']

/-- Residual structural symbols removed. -/
def symbolStrip (s : List Char) : List Char :=
  s.filter (fun c => !residSymbols.contains c)

/-- `re.sub(r'[，。]{2,}', '。', text)` (clean.py line 255). -/
def punctRunAux : Nat → List Char → List Char
  | 0, s => s
  | _ + 1, [] => []
  | f + 1, c :: t =>
    if c == '，' || c == '。' then
      let run := countLead (fun d => d == '，' || d == '。') (c :: t)
      if 2 ≤ run then '。' :: punctRunAux f ((c :: t).drop run)
      else c :: punctRunAux f t
    else c :: punctRunAux f t

/-- Repeated terminal punctuation collapsed to one period. -/
def punctRun (s : List Char) : List Char := punctRunAux (s.length + 1) s

/-- `re.sub(r'^\s*[。，！？；：]\s*', '', text)` (clean.py line 256): this
pattern is anchored, so at most the one match at the start is removed. -/
def leadPunctStrip (s : List Char) : List Char :=
  let w := countLead isSpace s
  match s.drop w with
  | c :: r =>
    if pausePunct.contains c then r.dropWhile isSpace
    else s
  | [] => s

/-- Acceptance test of the final quality gate (clean.py lines 262-264):
`len ≥ 100`, CJK count at least half the length, and at least 50. -/
def qualityOK (t : List Char) : Bool :=
  decide (100 ≤ t.length) && decide (t.length ≤ 2 * cjkCount t) &&
  decide (50 ≤ cjkCount t)

/-- Stage 20: strip, then accept or return the rejection sentinel. -/
def finalGate (u : List Char) : List Char :=
  let t := stripBoth u
  if qualityOK t then t else []

/-! ## The pipeline (`clean_text`, clean.py lines 107-267) -/

/-- Template delimiters. -/
def tplOpen : List Char := ['\x7b', '\x7b']
/-- Template close. -/
def tplClose : List Char := ['\x7d', '\x7d']
/-- Table delimiters. -/
def tblOpen : List Char := ['\x7b', '|']
/-- Table close. -/
def tblClose : List Char := ['|', '\x7d']

/-- Everything `clean_text` does after the early truncation and before the
final gate: stages 2-19 of clean.py (lines 121-256). -/
def stagesMid (t0 : List Char) : List Char :=
  let t2 := removeComments t0
  let t3 := dropNested t2 tplOpen tplClose
  let t4 := dropNested t3 tblOpen tblClose
  let t5 := wikiLinkSub t4
  let t6 := residLinks t5
  let t7 := extLabel t6
  let t8 := extBare t7
  let t9 := bareUrl t8
  let t10 := discardStage t9
  let t11 := selfClosingStage t10
  let t12 := ignoredStage t11
  let t13 := removeAllTags t12
  let t14 := bi5 t13
  let t15 := bi3 t14
  let t16 := bi2 t15
  let t17 := entityStage t16
  let t18 := zhVariant t17
  let t19 := dashBraceStrip t18
  let t20 := citeNum t19
  let t21 := isbnStrip t20
  let t22 := doiStrip t21
  let t23 := reprintStrip t22
  let t24 := imageWords t23
  let t25 := parenEq t24
  let t26 := assignStrip t25
  let t27 := lineStage t26
  let t28 := punctA t27
  let t29 := punctB t28
  let t30 := wsCollapse t29
  let t31 := symbolStrip t30
  let t32 := punctRun t31
  leadPunctStrip t32

/-- `clean_text` minus its first stage. -/
def cleanAfterTrunc (t : List Char) : List Char :=
  finalGate (stagesMid t)

/-- `clean_text` (clean.py line 107): the whole cleaning pipeline. -/
def clean_text (text : List Char) : List Char :=
  cleanAfterTrunc (truncAtEndSections text)

/-- The text the final gate inspects (after `strip()`). -/
def preGate (text : List Char) : List Char :=
  stripBoth (stagesMid (truncAtEndSections text))

/-! ## Spec-side definitions for refinement claims -/

/-- Modelled from the spec (claim C10's reading): the ten listed
reference-section keywords, with `参考文献` as a fixed four-character
keyword. -/
def listedKws : List (List Char) :=
  [strOf "参见", strOf "注释", strOf "参考文献", strOf "参考书目",
   strOf "外部链接", strOf "延伸阅读", strOf "相关条目", strOf "另见",
   strOf "参考资料", strOf "脚注"]

/-- Offset of the first position of `s` at which some keyword of `kws`
starts, if any. -/
def firstKwIdx (kws : List (List Char)) : List Char → Option Nat
  | [] => if kws.any (fun k => leadsWith k []) then some 0 else none
  | c :: t =>
    if kws.any (fun k => leadsWith k (c :: t)) then some 0
    else (firstKwIdx kws t).map (· + 1)

/-- Modelled from the spec: truncation at the first occurrence of any
keyword of `kws`, discarding the occurrence and everything after it. -/
def specTruncOn (kws : List (List Char)) (t : List Char) : List Char :=
  match firstKwIdx kws t with
  | some i => t.take i
  | none => t

/-! ## Character-class lemmas -/

lemma char_beq_false {c d : Char} (h : c.toNat ≠ d.toNat) : (c == d) = false := by
  rw [beq_eq_false_iff_ne]
  intro he
  exact h (he ▸ rfl)

lemma cjk_toNat {c : Char} (h : isCJK c = true) :
    0x4e00 ≤ c.toNat ∧ c.toNat ≤ 0x9fff := by
  simp only [isCJK, Bool.and_eq_true, decide_eq_true_eq] at h
  exact h

/-- A CJK ideograph differs from any character outside the block. -/
lemma cjk_beq_right {c : Char} (h : isCJK c = true) (d : Char)
    (hd : d.toNat < 0x4e00 ∨ 0x9fff < d.toNat) : (c == d) = false := by
  have hc := cjk_toNat h
  exact char_beq_false (by omega)

lemma cjk_beq_left {c : Char} (h : isCJK c = true) (d : Char)
    (hd : d.toNat < 0x4e00 ∨ 0x9fff < d.toNat) : (d == c) = false := by
  have hc := cjk_toNat h
  exact char_beq_false (by omega)

lemma cjk_ne {c : Char} (h : isCJK c = true) (d : Char)
    (hd : d.toNat < 0x4e00 ∨ 0x9fff < d.toNat) : c ≠ d := by
  have hc := cjk_toNat h
  intro he
  rw [he] at hc
  omega

lemma cjk_isSpace {c : Char} (h : isCJK c = true) : isSpace c = false := by
  simp only [isSpace, Bool.or_eq_false_iff]
  refine ⟨⟨⟨⟨⟨⟨?_, ?_⟩, ?_⟩, ?_⟩, ?_⟩, ?_⟩, ?_⟩ <;>
    exact cjk_beq_right h _ (by decide)

lemma cjk_isDigit {c : Char} (h : isCJK c = true) : isDigitCh c = false := by
  have hc := cjk_toNat h
  simp only [isDigitCh, Bool.and_eq_false_iff, decide_eq_false_iff_not]
  omega

lemma cjk_isWord {c : Char} (h : isCJK c = true) : isWordChar c = true := by
  simp [isWordChar, h]

lemma cjk_lowerCh {c : Char} (h : isCJK c = true) : lowerCh c = c := by
  have hc := cjk_toNat h
  rw [lowerCh, if_neg]
  simp only [Bool.and_eq_true, decide_eq_true_eq, not_and]
  omega

lemma all_tail {P : Char → Prop} {c : Char} {t : List Char}
    (h : ∀ d ∈ c :: t, P d) : ∀ d ∈ t, P d :=
  fun d hd => h d (List.mem_cons_of_mem _ hd)

lemma all_head {P : Char → Prop} {c : Char} {t : List Char}
    (h : ∀ d ∈ c :: t, P d) : P c :=
  h c (List.mem_cons_self ..)

/-- A list of CJK ideographs has full CJK count. -/
lemma cjkCount_all {t : List Char} (h : ∀ c ∈ t, isCJK c = true) :
    cjkCount t = t.length := by
  simpa [cjkCount] using List.countP_eq_length.mpr h

/-! ## Search-primitive lemmas -/

lemma leadsWith_length {p s : List Char} (h : leadsWith p s = true) :
    p.length ≤ s.length := by
  induction p generalizing s with
  | nil => simp
  | cons a ps ih =>
    match s with
    | [] => simp [leadsWith] at h
    | c :: t =>
      rw [leadsWith, Bool.and_eq_true] at h
      simpa using ih h.2

lemma findFromAux_ge {p s : List Char} {i j : Nat}
    (h : findFromAux p s i = some j) : i ≤ j := by
  induction s generalizing i with
  | nil =>
    rw [findFromAux] at h
    split at h
    · exact (Option.some_inj.mp h) ▸ le_refl i
    · simp at h
  | cons c t ih =>
    rw [findFromAux] at h
    split at h
    · exact (Option.some_inj.mp h) ▸ le_refl i
    · exact Nat.le_of_succ_le (ih h)

lemma findFromAux_le {p s : List Char} {i j : Nat} (hp : p ≠ [])
    (h : findFromAux p s i = some j) : j + p.length ≤ i + s.length := by
  induction s generalizing i with
  | nil =>
    rw [findFromAux] at h
    split at h
    · next hl =>
      match p with
      | [] => exact absurd rfl hp
      | q :: ps => simp [leadsWith] at hl
    · simp at h
  | cons c t ih =>
    rw [findFromAux] at h
    split at h
    · next hl =>
      have h1 := leadsWith_length hl
      have hj := Option.some_inj.mp h
      subst hj
      simp only [List.length_cons] at h1 ⊢
      omega
    · have := ih h
      simp only [List.length_cons]
      omega

lemma findFrom_ge {p text : List Char} {i j : Nat}
    (h : findFrom p text i = some j) : i ≤ j :=
  findFromAux_ge h

lemma findFrom_le {p text : List Char} {i j : Nat} (hp : p ≠ [])
    (h : findFrom p text i = some j) : j + p.length ≤ text.length := by
  have h2 := findFromAux_le hp h
  have h3 : (text.drop i).length = text.length - i := List.length_drop ..
  by_cases hi : i ≤ text.length
  · omega
  · exfalso
    have hnil : text.drop i = [] := List.drop_eq_nil_of_le (by omega)
    rw [findFrom, hnil] at h
    match p with
    | [] => exact hp rfl
    | q :: ps => simp [findFromAux, leadsWith] at h

/-- If the head character of (nonempty) `pat` occurs nowhere in `s`, the
search fails. -/
lemma findFromAux_none {q : Char} {ps s : List Char} {i : Nat}
    (h : ∀ c ∈ s, (q == c) = false) : findFromAux (q :: ps) s i = none := by
  induction s generalizing i with
  | nil => rw [findFromAux]; simp [leadsWith]
  | cons c t ih =>
    rw [findFromAux, if_neg]
    · exact ih (all_tail h)
    · simp [leadsWith, all_head h]

/-! ## C3, C4: dropNested basics -/

/-- C3: on the balanced nested template input the stripper removes the
entire outer region, returning the empty string. -/
theorem dropNested_nested_example :
    dropNested (strOf "\x7b\x7ba\x7b\x7bb\x7d\x7dc\x7d\x7d") tplOpen tplClose
      = [] := by decide

/-- C4: with no open marker, or no close marker after the first open
marker, `dropNested` returns the text unchanged. -/
theorem dropNested_no_marker_id :
    (∀ text op cl, findFrom op text 0 = none → dropNested text op cl = text) ∧
    (∀ text op cl i, findFrom op text 0 = some i →
      findFrom cl text (i + op.length) = none → dropNested text op cl = text) := by
  constructor
  · intro text op cl h
    simp only [dropNested, h]
  · intro text op cl i h1 h2
    simp only [dropNested, h1, h2]

/-- Witness for C4 at concrete inputs. -/
theorem dropNested_no_marker_id_witness :
    dropNested (strOf "ab") tplOpen tplClose = strOf "ab" ∧
    dropNested (strOf "x\x7b\x7by") tplOpen tplClose = strOf "x\x7b\x7by" :=
  ⟨dropNested_no_marker_id.1 _ _ _ (by decide),
   dropNested_no_marker_id.2 _ _ _ 1 (by decide) (by decide)⟩

/-! ## C8: link resolution examples -/

/-- C8: the link-resolution step deletes category links, substitutes
display text, and glues trailing word characters onto it. -/
theorem wikilink_resolution_examples :
    residLinks (wikiLinkSub (strOf "[[Category:Foo]]")) = [] ∧
    residLinks (wikiLinkSub (strOf "[[北京|首都]]")) = strOf "首都" ∧
    residLinks (wikiLinkSub (strOf "[[北京|首都]]市")) = strOf "首都市" := by
  decide

/-! ## C9: termination of the dropNested scanning loop -/

lemma dropLoop_isSome (text op cl : List Char) (hop : op ≠ []) :
    ∀ (fuel startIdx nextEnd endEnd nest : Nat) (ms : List (Nat × Nat)),
      nextEnd ≤ text.length → text.length < nextEnd + fuel →
      (dropLoop text op cl fuel startIdx nextEnd endEnd nest ms).isSome = true := by
  intro fuel
  induction fuel with
  | zero => intro _ nextEnd _ _ _ h1 h2; omega
  | succ f ih =>
    intro startIdx nextEnd endEnd nest ms h1 h2
    rw [dropLoop]
    split
    · simp
    · next nstart hf =>
      have hge := findFrom_ge hf
      have hle := findFrom_le hop hf
      have hopl : 1 ≤ op.length := by
        cases op with
        | nil => exact absurd rfl hop
        | cons a l => simp
      split
      · simp
      · simp
      · exact ih startIdx (nstart + op.length) _ _ ms (by omega) (by omega)
      · exact ih nstart (nstart + op.length) _ 0 _ (by omega) (by omega)

/-- C9: with a nonempty open marker, the scanning loop of `dropNested`
terminates within fuel `length + 1` from every reachable state - the
fallback (`none`) branch is unreachable, so `clean_text`, whose only
unbounded scan this is, is total on every input including malformed
nesting. -/
theorem dropNested_loop_terminates (text op cl : List Char)
    (startIdx nextEnd endEnd nest : Nat) (ms : List (Nat × Nat))
    (hop : op ≠ []) (hne : nextEnd ≤ text.length) :
    (dropLoop text op cl (text.length + 1) startIdx nextEnd endEnd nest ms).isSome
      = true :=
  dropLoop_isSome text op cl hop _ startIdx nextEnd endEnd nest ms hne (by omega)

/-- Witness for C9 on a malformed (unclosed) template input. -/
theorem dropNested_loop_terminates_witness :
    (dropLoop (strOf "\x7b\x7ba") tplOpen tplClose
      ((strOf "\x7b\x7ba").length + 1) 0 2 3 0 []).isSome = true :=
  dropNested_loop_terminates _ _ _ _ _ _ _ _ (by decide) (by decide)

/-! ## C7: the double decoding pass -/

/-- C7: unescaping `&amp;amp;` twice yields `&`, and the entity stage of
the pipeline is exactly two sequential `unescape` calls. -/
theorem unescape_double_pass :
    unescape (unescape (strOf "&amp;amp;")) = strOf "&" ∧
    (∀ t, entityStage t = unescape (unescape t)) :=
  ⟨by decide, fun _ => rfl⟩

/-! ## C5: unescape never raises and never drops text -/

/-- Decoding of a complete, well-formed reference chunk. -/
def refDecode (chunk : List Char) : Option Char :=
  match parseRef chunk with
  | some (_, some ch, []) => some ch
  | _ => none

/-- The spec's contract for `unescape` (§4.2): the output is the input with
some decodable references replaced by their characters - references that
fail to decode stay verbatim and text outside references is preserved. -/
inductive UnescSpec : List Char → List Char → Prop where
  | nil : UnescSpec [] []
  | keep : ∀ (c : Char) (rest out : List Char),
      UnescSpec rest out → UnescSpec (c :: rest) (c :: out)
  | subst : ∀ (chunk : List Char) (ch : Char) (rest out : List Char),
      refDecode chunk = some ch → UnescSpec rest out →
      UnescSpec (chunk ++ rest) (ch :: out)

lemma UnescSpec.keepAll (pre : List Char) {rest out : List Char}
    (h : UnescSpec rest out) : UnescSpec (pre ++ rest) (pre ++ out) := by
  induction pre with
  | nil => simpa
  | cons c p ih => exact UnescSpec.keep c _ _ ih

lemma unescapeAux_nil : ∀ f, unescapeAux f [] = []
  | 0 => rfl
  | _ + 1 => rfl

lemma parseRefBody_split {hashed : Bool} {t2 chunk rest : List Char}
    {r : Option Char} (h : parseRefBody hashed t2 = some (chunk, r, rest)) :
    ∃ w, w ≠ [] ∧ (∀ d ∈ w, isWordChar d = true) ∧ t2 = w ++ ';' :: rest ∧
      r = fixupRef hashed w ∧
      chunk = '&' :: (if hashed then '#' :: (w ++ [';']) else w ++ [';']) := by
  simp only [parseRefBody] at h
  split at h
  · simp at h
  · next hne =>
    split at h
    · next rest' hdrop =>
      simp only [Option.some_inj, Prod.mk.injEq] at h
      obtain ⟨h1, h2, h3⟩ := h
      refine ⟨t2.takeWhile isWordChar, ?_, ?_, ?_, h2.symm, h1.symm⟩
      · intro he
        rw [he] at hne
        simp at hne
      · exact fun d hd => List.mem_takeWhile_imp hd
      · conv_lhs => rw [← @List.takeWhile_append_dropWhile _ isWordChar t2]
        rw [hdrop, h3]
    · simp at h

lemma parseRef_split {s chunk rest : List Char} {r : Option Char}
    (h : parseRef s = some (chunk, r, rest)) :
    s = chunk ++ rest ∧ 3 ≤ chunk.length := by
  rw [parseRef.eq_def] at h
  split at h
  · next t2 =>
    obtain ⟨w, hw, _, ht2, _, hch⟩ := parseRefBody_split h
    subst hch
    subst ht2
    refine ⟨by simp, ?_⟩
    match w, hw with
    | d :: w', _ => simp
  · next t1 _ _ =>
    obtain ⟨w, hw, _, ht2, _, hch⟩ := parseRefBody_split h
    subst hch
    subst ht2
    refine ⟨by simp, ?_⟩
    match w, hw with
    | d :: w', _ => simp
  · simp at h

/-- `takeWhile`/`dropWhile` on a run of good characters followed by a bad
one. -/
lemma takeWhile_append_all {p : Char → Bool} {ds r : List Char} {x : Char}
    (hds : ∀ d ∈ ds, p d = true) (hx : p x = false) :
    (ds ++ x :: r).takeWhile p = ds ∧ (ds ++ x :: r).dropWhile p = x :: r := by
  induction ds with
  | nil => simp [List.takeWhile_cons, List.dropWhile_cons, hx]
  | cons d t ih =>
    have hd := all_head hds
    have ht := ih (all_tail hds)
    simp [List.takeWhile_cons, List.dropWhile_cons, hd, ht.1, ht.2]

lemma parseRef_chunk {s chunk rest : List Char} {r : Option Char}
    (h : parseRef s = some (chunk, r, rest)) :
    parseRef chunk = some (chunk, r, []) := by
  rw [parseRef.eq_def] at h
  split at h
  · obtain ⟨w, hw, hword, ht2, hr, hch⟩ := parseRefBody_split h
    rw [if_pos rfl] at hch
    subst hch hr
    match w, hw with
    | d :: w', _ =>
      have hsemi : isWordChar ';' = false := by decide
      have hsplit := @takeWhile_append_all isWordChar (d :: w') [] ';' hword hsemi
      show parseRefBody true ((d :: w') ++ [';']) = _
      rw [parseRefBody]
      simp only [hsplit.1, hsplit.2]
      rw [if_neg (by simp)]
      simp
  · obtain ⟨w, hw, hword, ht2, hr, hch⟩ := parseRefBody_split h
    rw [if_neg (by decide)] at hch
    subst hch hr
    match w, hw with
    | d :: w', _ =>
      have hdw : isWordChar d = true := hword d (List.mem_cons_self ..)
      have hdne : d ≠ '#' := by
        intro he
        rw [he] at hdw
        exact absurd hdw (by decide)
      have hsemi : isWordChar ';' = false := by decide
      have hsplit := @takeWhile_append_all isWordChar (d :: w') [] ';' hword hsemi
      rw [parseRef.eq_def]
      split
      · next _ t2 heq =>
        exfalso
        rw [List.cons_append] at heq
        injection heq with h1 h2
        injection h2 with h3 _
        exact hdne h3
      · next _ t1x heq =>
        injection heq with _ h2
        subst h2
        rw [parseRefBody]
        simp only [hsplit.1, hsplit.2]
        rw [if_neg (by simp)]
        simp
      · next _ hk1 hk2 => exact (hk2 _ rfl).elim
  · simp at h

lemma unescapeAux_spec : ∀ (f : Nat) (s : List Char),
    s.length < f → UnescSpec s (unescapeAux f s) := by
  intro f
  induction f with
  | zero => intro s h; omega
  | succ f ih =>
    intro s hlen
    match s, hlen with
    | [], _ => rw [unescapeAux_nil]; exact UnescSpec.nil
    | c :: t, hlen =>
      rw [unescapeAux]
      split
      · next x ch rest hp =>
        obtain ⟨heq, hl3⟩ := parseRef_split hp
        have hrd : refDecode x = some ch := by
          rw [refDecode.eq_def, parseRef_chunk hp]
        have hlr : rest.length < f := by
          have := congrArg List.length heq
          simp only [List.length_cons, List.length_append] at this hlen
          omega
        rw [heq]
        exact UnescSpec.subst x ch rest _ hrd (ih rest hlr)
      · next chunk rest hp =>
        obtain ⟨heq, hl3⟩ := parseRef_split hp
        have hlr : rest.length < f := by
          have := congrArg List.length heq
          simp only [List.length_cons, List.length_append] at this hlen
          omega
        rw [heq]
        exact UnescSpec.keepAll chunk (ih rest hlr)
      · next hp =>
        have hlt : t.length < f := by
          simp only [List.length_cons] at hlen
          omega
        exact UnescSpec.keep c t _ (ih t hlt)

/-- C5 candidate: unescape never drops text; failed references stay
verbatim. -/
theorem unescape_total_and_verbatim :
    (∀ s, UnescSpec s (unescape s)) ∧
    unescape (strOf "&bogus;&#9999999999;&#xZZ; &x; &#; text")
      = strOf "&bogus;&#9999999999;&#xZZ; &x; &#; text" :=
  ⟨fun s => unescapeAux_spec (s.length + 1) s (by omega), by decide⟩


/-! ## C6: numeric and named reference decoding -/


/-- Base-10 value of a digit string. -/
def decValue (ds : List Char) : Nat :=
  ds.foldl (fun a c => 10 * a + digitVal c) 0

/-- Base-16 value of a hex-digit string. -/
def hexValue (hs : List Char) : Nat :=
  hs.foldl (fun a c => 16 * a + digitVal c) 0

lemma digit_isWord {d : Char} (h : isDigitCh d = true) : isWordChar d = true := by
  simp [isWordChar, h]

lemma hex_isWord {d : Char} (h : isHexDig d = true) : isWordChar d = true := by
  have hor : isDigitCh d = true ∨ isAsciiLetter d = true := by
    simp only [isHexDig, isDigitCh, Bool.or_eq_true, Bool.and_eq_true,
      decide_eq_true_eq] at h
    simp only [isDigitCh, isAsciiLetter, Bool.or_eq_true, Bool.and_eq_true,
      decide_eq_true_eq]
    omega
  rcases hor with h1 | h1 <;> simp [isWordChar, h1]

lemma digit_ne_x {d : Char} (h : isDigitCh d = true) : d ≠ 'x' := by
  intro he
  rw [he] at h
  exact absurd h (by decide)

lemma parseIntPyAux_all (base : Nat) :
    ∀ (ds : List Char) (acc : Nat) (b : Bool), ds ≠ [] →
      (∀ d ∈ ds, isBaseDig base d = true) →
      parseIntPyAux base ds acc b
        = some (ds.foldl (fun a c => base * a + digitVal c) acc) := by
  intro ds
  induction ds with
  | nil => intro acc b h _; exact absurd rfl h
  | cons d t ih =>
    intro acc b _ hall
    rw [parseIntPyAux, if_pos (all_head hall)]
    cases t with
    | nil => rw [parseIntPyAux, if_pos rfl]; simp
    | cons e r =>
      rw [ih _ _ (by simp) (all_tail hall)]
      simp

/-- `parseRef` on a complete well-formed reference. -/
lemma parseRef_of_chunk (hashed : Bool) (w : List Char) (hw : w ≠ [])
    (hword : ∀ d ∈ w, isWordChar d = true) :
    parseRef ('&' :: (if hashed then '#' :: (w ++ [';']) else w ++ [';']))
      = some ('&' :: (if hashed then '#' :: (w ++ [';']) else w ++ [';']),
              fixupRef hashed w, []) := by
  match w, hw with
  | d :: w', _ =>
    have hsemi : isWordChar ';' = false := by decide
    have hsplit := @takeWhile_append_all isWordChar (d :: w') [] ';' hword hsemi
    cases hashed with
    | true =>
      show parseRefBody true ((d :: w') ++ [';'])
        = some ('&' :: '#' :: ((d :: w') ++ [';']), fixupRef true (d :: w'), [])
      rw [parseRefBody]
      simp only [hsplit.1, hsplit.2]
      rw [if_neg (by simp)]
      simp
    | false =>
      have hdw : isWordChar d = true := hword d (List.mem_cons_self ..)
      have hdne : d ≠ '#' := by
        intro he
        rw [he] at hdw
        exact absurd hdw (by decide)
      show parseRef ('&' :: ((d :: w') ++ [';']))
        = some ('&' :: ((d :: w') ++ [';']), fixupRef false (d :: w'), [])
      rw [parseRef.eq_def]
      split
      · next _ t2 heq =>
        exfalso
        rw [List.cons_append] at heq
        injection heq with h1 h2
        injection h2 with h3 _
        exact hdne h3
      · next _ t1x heq =>
        injection heq with _ h2
        subst h2
        rw [parseRefBody]
        simp only [hsplit.1, hsplit.2]
        rw [if_neg (by simp)]
        simp
      · next _ hk1 hk2 => exact (hk2 _ rfl).elim

/-- Evaluation of `unescape` on a single decodable reference. -/
lemma unescape_ref (hashed : Bool) (w : List Char) (hw : w ≠ [])
    (hword : ∀ d ∈ w, isWordChar d = true) {c : Char}
    (hfix : fixupRef hashed w = some c) :
    unescape ('&' :: (if hashed then '#' :: (w ++ [';']) else w ++ [';'])) = [c] := by
  rw [unescape, unescapeAux]
  simp only [parseRef_of_chunk hashed w hw hword, hfix, unescapeAux_nil]

/-- C6 (amended): decimal references decode as base-10 code points, hex
references marked by a lowercase `x` decode as base-16, and named
references resolve against the fixed table; the substituted character is
the decoded code point. -/
theorem unescape_numeric_named_amended :
    (∀ (ds : List Char) (c : Char), ds ≠ [] → (∀ d ∈ ds, isDigitCh d = true) →
      chrOpt (decValue ds) = some c →
      unescape ('&' :: '#' :: (ds ++ [';'])) = [c]) ∧
    (∀ (hs : List Char) (c : Char), hs ≠ [] → (∀ d ∈ hs, isHexDig d = true) →
      chrOpt (hexValue hs) = some c →
      unescape ('&' :: '#' :: 'x' :: (hs ++ [';'])) = [c]) ∧
    (∀ (nm : List Char) (v : Nat) (c : Char), nm ≠ [] →
      (∀ d ∈ nm, isWordChar d = true) → lookupCp nm = some v → chrOpt v = some c →
      unescape ('&' :: (nm ++ [';'])) = [c]) := by
  refine ⟨?_, ?_, ?_⟩
  · intro ds c hne hdig hchr
    have hword : ∀ d ∈ ds, isWordChar d = true := fun d hd => digit_isWord (hdig d hd)
    have hfix : fixupRef true ds = some c := by
      rw [fixupRef.eq_def, if_pos rfl]
      split
      · next hs heq =>
        exfalso
        have hx := hdig 'x' (List.mem_cons_self ..)
        exact absurd hx (by decide)
      · unfold parseIntPy
        rw [parseIntPyAux_all 10 ds 0 false hne
          (fun d hd => by simp [isBaseDig, hdig d hd])]
        simpa using hchr
    have h := unescape_ref true ds hne hword hfix
    simpa using h
  · intro hs c hne hhex hchr
    have hword : ∀ d ∈ 'x' :: hs, isWordChar d = true := by
      intro d hd
      rcases List.mem_cons.mp hd with h | h
      · subst h; decide
      · exact hex_isWord (hhex d h)
    have hfix : fixupRef true ('x' :: hs) = some c := by
      rw [fixupRef.eq_def, if_pos rfl]
      show (parseIntPy 16 hs).bind chrOpt = some c
      unfold parseIntPy
      rw [parseIntPyAux_all 16 hs 0 false hne
        (fun d hd => by simp [isBaseDig, hhex d hd])]
      simpa using hchr
    have h := unescape_ref true ('x' :: hs) (by simp) hword hfix
    simpa using h
  · intro nm v c hne hword hlook hchr
    have hfix : fixupRef false nm = some c := by
      rw [fixupRef.eq_def, if_neg (by simp)]
      simp [hlook, hchr]
    have h := unescape_ref false nm hne hword hfix
    simpa using h

/-- C6 counterexample: a hex reference marked by uppercase `X` does not
decode (the code tests only for lowercase `x`); it stays verbatim instead
of becoming `A`. -/
theorem unescape_upper_hex_counterexample :
    unescape (strOf "&#X41;") = strOf "&#X41;" ∧
    unescape (strOf "&#X41;") ≠ strOf "A" := by decide

/-- Witness for the amended C6 on `&#65;`, `&#x41;` and `&amp;`. -/
theorem unescape_numeric_named_amended_witness :
    unescape ('&' :: '#' :: (['6', '5'] ++ [';'])) = ['A'] ∧
    unescape ('&' :: '#' :: 'x' :: (['4', '1'] ++ [';'])) = ['A'] ∧
    unescape ('&' :: (strOf "amp" ++ [';'])) = ['&'] :=
  ⟨unescape_numeric_named_amended.1 _ _ (by decide) (by decide) (by decide),
   unescape_numeric_named_amended.2.1 _ _ (by decide) (by decide) (by decide),
   unescape_numeric_named_amended.2.2 _ 38 _ (by decide) (by decide) (by decide)
     (by decide)⟩


/-! ## C1: the document quality gate, and C10: early truncation -/


/-- `clean_text` is its pre-gate text filtered by the quality test. -/
lemma clean_text_gate (x : List Char) :
    clean_text x = if qualityOK (preGate x) then preGate x else [] := rfl

/-- C1: an accepted (non-empty) result always satisfies `length ≥ 100`,
CJK count at least half the length and at least 50; a final text that
fails the quality test yields the empty rejection sentinel. -/
theorem clean_text_quality_invariant :
    (∀ x, clean_text x ≠ [] →
      100 ≤ (clean_text x).length ∧
      (clean_text x).length ≤ 2 * cjkCount (clean_text x) ∧
      50 ≤ cjkCount (clean_text x)) ∧
    (∀ x, qualityOK (preGate x) = false → clean_text x = []) := by
  constructor
  · intro x hx
    have hg := clean_text_gate x
    by_cases h : qualityOK (preGate x) = true
    · rw [hg, if_pos h]
      simp only [qualityOK, Bool.and_eq_true, decide_eq_true_eq] at h
      exact ⟨h.1.1, h.1.2, h.2⟩
    · rw [hg, if_neg h] at hx
      exact absurd rfl hx
  · intro x h
    rw [clean_text_gate x, if_neg (by simp [h])]

set_option maxRecDepth 40000 in
/-- Witness for C1: an accepted all-CJK document and a rejected empty
one. -/
theorem clean_text_quality_invariant_witness :
    100 ≤ (clean_text (List.replicate 100 '汉')).length ∧ clean_text [] = [] :=
  ⟨(clean_text_quality_invariant.1 _ (by decide)).1,
   clean_text_quality_invariant.2 [] (by decide)⟩

/-- The code's truncation equals spec-style truncation at the first
occurrence of a keyword of the (amended) keyword list. -/
lemma truncAt_eq_spec : ∀ t, truncAtEndSections t = specTruncOn truncKws t := by
  intro t
  induction t with
  | nil => decide
  | cons c t ih =>
    rw [truncAtEndSections]
    by_cases h : truncKwAt (c :: t) = true
    · rw [if_pos h]
      have h2 : (truncKws.any fun k => leadsWith k (c :: t)) = true := h
      rw [specTruncOn, firstKwIdx, if_pos h2]
      simp
    · rw [if_neg h]
      have hc : truncKws.any (fun k => leadsWith k (c :: t)) = false := by
        have : truncKwAt (c :: t) = false := by
          cases hx : truncKwAt (c :: t) with
          | true => exact absurd hx h
          | false => rfl
        simpa [truncKwAt] using this
      cases hf : firstKwIdx truncKws t with
      | none =>
        have ht : specTruncOn truncKws t = t := by rw [specTruncOn, hf]
        rw [ih, ht, specTruncOn, firstKwIdx, if_neg (by simp [hc]), hf]
        simp
      | some i =>
        have ht : specTruncOn truncKws t = t.take i := by rw [specTruncOn, hf]
        rw [ih, ht, specTruncOn, firstKwIdx, if_neg (by simp [hc]), hf]
        simp

/-- C10 counterexample: in `汉参考文字另见后` the first listed keyword
(`另见`) starts at index 5, but the code truncates at index 1, where the
bare `参考文` matches because the regex makes the final `献` of
`参考文献` optional. -/
theorem trunc_listed_keywords_counterexample :
    truncAtEndSections (strOf "汉参考文字另见后") = strOf "汉" ∧
    truncAtEndSections (strOf "汉参考文字另见后")
      ≠ specTruncOn listedKws (strOf "汉参考文字另见后") := by decide

/-- C10 (amended): `clean_text` first truncates at the first occurrence
of any reference-section keyword, where the keyword set reads `参考文`
(with `献` optional) rather than the full `参考文献`; the rest of the
pipeline sees only the prefix before that match. -/
theorem trunc_first_keyword_amended :
    (∀ t, truncAtEndSections t = specTruncOn truncKws t) ∧
    (∀ x, clean_text x = cleanAfterTrunc (truncAtEndSections x)) :=
  ⟨truncAt_eq_spec, fun _ => rfl⟩


/-! ## C2: idempotence on accepted output -/

/-! Stage identity lemmas on keyword-free pure-CJK text (for C2). -/

lemma truncAt_id {t : List Char} (h : hasKw t = false) :
    truncAtEndSections t = t := by
  induction t with
  | nil => rfl
  | cons c r ih =>
    rw [hasKw, Bool.or_eq_false_iff] at h
    rw [truncAtEndSections, if_neg (by simp [h.1]), ih h.2]

lemma removeComments_cjk {t : List Char} (h : ∀ c ∈ t, isCJK c = true) :
    removeComments t = t := by
  rw [removeComments]
  generalize t.length + 1 = f
  induction f generalizing t with
  | zero => rfl
  | succ f ih =>
    match t, h with
    | [], _ => rfl
    | c :: r, h =>
      have hc := all_head h
      rw [removeCommentsAux, if_neg (by simp [cmtOpen, leadsWith,
        cjk_beq_left hc '<' (by decide)]), ih (all_tail h)]

lemma findFrom_cjk_none {t : List Char} (h : ∀ c ∈ t, isCJK c = true)
    {q : Char} (hq : q.toNat < 0x4e00 ∨ 0x9fff < q.toNat) (ps : List Char) :
    findFrom (q :: ps) t 0 = none := by
  rw [findFrom, List.drop_zero]
  exact findFromAux_none (fun c hc => cjk_beq_left (h c hc) _ hq)

lemma dropNested_tpl_id {t : List Char} (h : ∀ c ∈ t, isCJK c = true) :
    dropNested t tplOpen tplClose = t := by
  have hn : findFrom tplOpen t 0 = none := findFrom_cjk_none h (by decide) _
  simp only [dropNested, hn]

lemma dropNested_tbl_id {t : List Char} (h : ∀ c ∈ t, isCJK c = true) :
    dropNested t tblOpen tblClose = t := by
  have hn : findFrom tblOpen t 0 = none := findFrom_cjk_none h (by decide) _
  simp only [dropNested, hn]

lemma tryWikiLink_none {c : Char} {t : List Char} (h : c ≠ '[') :
    tryWikiLink (c :: t) = none := by
  rw [tryWikiLink.eq_def]
  split
  · next r heq =>
    exfalso
    injection heq with h1 _
    exact h h1
  · rfl

lemma wikiLinkSub_cjk {t : List Char} (h : ∀ c ∈ t, isCJK c = true) :
    wikiLinkSub t = t := by
  rw [wikiLinkSub]
  generalize t.length + 1 = f
  induction f generalizing t with
  | zero => rfl
  | succ f ih =>
    match t, h with
    | [], _ => rfl
    | c :: r, h =>
      have hc := all_head h
      rw [wikiLinkAux, tryWikiLink_none (cjk_ne hc '[' (by decide)),
        ih (all_tail h)]

lemma tryResid_none {c : Char} {t : List Char} (h : c ≠ '[') :
    tryResid (c :: t) = none := by
  rw [tryResid.eq_def]
  split
  · next r heq =>
    exfalso
    injection heq with h1 _
    exact h h1
  · rfl

lemma residLinks_cjk {t : List Char} (h : ∀ c ∈ t, isCJK c = true) :
    residLinks t = t := by
  rw [residLinks]
  generalize t.length + 1 = f
  induction f generalizing t with
  | zero => rfl
  | succ f ih =>
    match t, h with
    | [], _ => rfl
    | c :: r, h =>
      have hc := all_head h
      rw [residLinksAux, tryResid_none (cjk_ne hc '[' (by decide)),
        ih (all_tail h)]

lemma tryExtLabel_none {c : Char} {t : List Char} (h : c ≠ '[') :
    tryExtLabel (c :: t) = none := by
  rw [tryExtLabel.eq_def]
  split
  · next r heq =>
    exfalso
    injection heq with h1 _
    exact h h1
  · rfl

lemma extLabel_cjk {t : List Char} (h : ∀ c ∈ t, isCJK c = true) :
    extLabel t = t := by
  rw [extLabel]
  generalize t.length + 1 = f
  induction f generalizing t with
  | zero => rfl
  | succ f ih =>
    match t, h with
    | [], _ => rfl
    | c :: r, h =>
      have hc := all_head h
      rw [extLabelAux, tryExtLabel_none (cjk_ne hc '[' (by decide)),
        ih (all_tail h)]

lemma tryExtBare_none {c : Char} {t : List Char} (h : c ≠ '[') :
    tryExtBare (c :: t) = none := by
  rw [tryExtBare.eq_def]
  split
  · next r heq =>
    exfalso
    injection heq with h1 _
    exact h h1
  · rfl

lemma extBare_cjk {t : List Char} (h : ∀ c ∈ t, isCJK c = true) :
    extBare t = t := by
  rw [extBare]
  generalize t.length + 1 = f
  induction f generalizing t with
  | zero => rfl
  | succ f ih =>
    match t, h with
    | [], _ => rfl
    | c :: r, h =>
      have hc := all_head h
      rw [extBareAux, tryExtBare_none (cjk_ne hc '[' (by decide)),
        ih (all_tail h)]

lemma schemeLen_cjk_none {c : Char} {t : List Char} (hc : isCJK c = true) :
    schemeLen (c :: t) = none := by
  rw [schemeLen, if_neg (by simp [httpsPat, leadsWith,
    cjk_beq_left hc 'h' (by decide)]), if_neg (by simp [httpPat, leadsWith,
    cjk_beq_left hc 'h' (by decide)])]

lemma bareUrl_cjk {t : List Char} (h : ∀ c ∈ t, isCJK c = true) :
    bareUrl t = t := by
  rw [bareUrl]
  generalize t.length + 1 = f
  induction f generalizing t with
  | zero => rfl
  | succ f ih =>
    match t, h with
    | [], _ => rfl
    | c :: r, h =>
      have hc := all_head h
      rw [bareUrlAux, schemeLen_cjk_none hc, ih (all_tail h)]


lemma openTagLen_none {tag : List Char} {c : Char} {t : List Char}
    (h : c ≠ '<') : openTagLen tag (c :: t) = none := by
  rw [openTagLen.eq_def]
  split
  · next r heq =>
    exfalso
    injection heq with h1 _
    exact h h1
  · rfl

lemma closeTagLen_none {tag : List Char} {c : Char} {t : List Char}
    (h : c ≠ '<') : closeTagLen tag (c :: t) = none := by
  rw [closeTagLen.eq_def]
  split
  · next r heq =>
    exfalso
    injection heq with h1 _
    exact h h1
  · rfl

lemma selfCloseLen_none {tag : List Char} {c : Char} {t : List Char}
    (h : c ≠ '<') : selfCloseLen tag (c :: t) = none := by
  rw [selfCloseLen.eq_def]
  split
  · next r heq =>
    exfalso
    injection heq with h1 _
    exact h h1
  · rfl

lemma discardTagAux_cjk {tag : List Char} {f : Nat} {t : List Char}
    (h : ∀ c ∈ t, isCJK c = true) : discardTagAux tag f t = t := by
  induction f generalizing t with
  | zero => rfl
  | succ f ih =>
    match t, h with
    | [], _ => rfl
    | c :: r, h =>
      rw [discardTagAux, openTagLen_none (cjk_ne (all_head h) '<' (by decide)),
        ih (all_tail h)]

lemma discardStage_cjk {t : List Char} (h : ∀ c ∈ t, isCJK c = true) :
    discardStage t = t := by
  rw [discardStage]
  generalize discardList = tags
  induction tags generalizing t with
  | nil => rfl
  | cons tag rest ih =>
    rw [List.foldl_cons]
    rw [show removeDiscardTag tag t = t from discardTagAux_cjk h]
    exact ih h

lemma selfCloseAux_cjk {tag : List Char} {f : Nat} {t : List Char}
    (h : ∀ c ∈ t, isCJK c = true) : selfCloseAux tag f t = t := by
  induction f generalizing t with
  | zero => rfl
  | succ f ih =>
    match t, h with
    | [], _ => rfl
    | c :: r, h =>
      rw [selfCloseAux, selfCloseLen_none (cjk_ne (all_head h) '<' (by decide)),
        ih (all_tail h)]

lemma selfClosingStage_cjk {t : List Char} (h : ∀ c ∈ t, isCJK c = true) :
    selfClosingStage t = t := by
  rw [selfClosingStage]
  generalize selfClosingList = tags
  induction tags generalizing t with
  | nil => rfl
  | cons tag rest ih =>
    rw [List.foldl_cons, selfCloseAux_cjk h]
    exact ih h

lemma ignoredOpenAux_cjk {tag : List Char} {f : Nat} {t : List Char}
    (h : ∀ c ∈ t, isCJK c = true) : ignoredOpenAux tag f t = t := by
  induction f generalizing t with
  | zero => rfl
  | succ f ih =>
    match t, h with
    | [], _ => rfl
    | c :: r, h =>
      rw [ignoredOpenAux, openTagLen_none (cjk_ne (all_head h) '<' (by decide)),
        ih (all_tail h)]

lemma ignoredCloseAux_cjk {tag : List Char} {f : Nat} {t : List Char}
    (h : ∀ c ∈ t, isCJK c = true) : ignoredCloseAux tag f t = t := by
  induction f generalizing t with
  | zero => rfl
  | succ f ih =>
    match t, h with
    | [], _ => rfl
    | c :: r, h =>
      rw [ignoredCloseAux, closeTagLen_none (cjk_ne (all_head h) '<' (by decide)),
        ih (all_tail h)]

lemma ignoredStage_cjk {t : List Char} (h : ∀ c ∈ t, isCJK c = true) :
    ignoredStage t = t := by
  rw [ignoredStage]
  generalize ignoredList = tags
  induction tags generalizing t with
  | nil => rfl
  | cons tag rest ih =>
    rw [List.foldl_cons, ignoredOpenAux_cjk h, ignoredCloseAux_cjk h]
    exact ih h

lemma removeAllTags_cjk {t : List Char} (h : ∀ c ∈ t, isCJK c = true) :
    removeAllTags t = t := by
  rw [removeAllTags]
  generalize t.length + 1 = f
  induction f generalizing t with
  | zero => rfl
  | succ f ih =>
    match t, h with
    | [], _ => rfl
    | c :: r, h =>
      rw [anyTagAux, if_neg (by simp [cjk_beq_right (all_head h) '<' (by decide)]),
        ih (all_tail h)]

lemma leadsWith_apo_false {c : Char} {t ps : List Char} (hc : isCJK c = true) :
    leadsWith (apo :: ps) (c :: t) = false := by
  rw [leadsWith, cjk_beq_left hc apo (by decide), Bool.false_and]

lemma bi5_cjk {t : List Char} (h : ∀ c ∈ t, isCJK c = true) : bi5 t = t := by
  rw [bi5]
  generalize t.length + 1 = f
  induction f generalizing t with
  | zero => rfl
  | succ f ih =>
    match t, h with
    | [], _ => rfl
    | c :: r, h =>
      rw [bi5Aux, if_neg (by simp [quote5, List.replicate, leadsWith_apo_false (all_head h)]),
        ih (all_tail h)]

lemma bi3_cjk {t : List Char} (h : ∀ c ∈ t, isCJK c = true) : bi3 t = t := by
  rw [bi3]
  generalize t.length + 1 = f
  induction f generalizing t with
  | zero => rfl
  | succ f ih =>
    match t, h with
    | [], _ => rfl
    | c :: r, h =>
      rw [bi3Aux, if_neg (by simp [quote3, List.replicate, leadsWith_apo_false (all_head h)]),
        ih (all_tail h)]

lemma bi2_cjk {t : List Char} (h : ∀ c ∈ t, isCJK c = true) : bi2 t = t := by
  rw [bi2]
  generalize t.length + 1 = f
  induction f generalizing t with
  | zero => rfl
  | succ f ih =>
    match t, h with
    | [], _ => rfl
    | c :: r, h =>
      rw [bi2Aux, if_neg (by simp [quote2, List.replicate, leadsWith_apo_false (all_head h)]),
        ih (all_tail h)]

lemma zhVariant_cjk {t : List Char} (h : ∀ c ∈ t, isCJK c = true) :
    zhVariant t = t := by
  rw [zhVariant]
  generalize t.length + 1 = f
  induction f generalizing t with
  | zero => rfl
  | succ f ih =>
    match t, h with
    | [], _ => rfl
    | c :: r, h =>
      rw [zhVarAux, if_neg (by simp [leadsWith,
        cjk_beq_left (all_head h) '-' (by decide)]), ih (all_tail h)]

lemma dashBraceStrip_cjk {t : List Char} (h : ∀ c ∈ t, isCJK c = true) :
    dashBraceStrip t = t := by
  rw [dashBraceStrip]
  generalize t.length + 1 = f
  induction f generalizing t with
  | zero => rfl
  | succ f ih =>
    match t, h with
    | [], _ => rfl
    | c :: r, h =>
      rw [dashBraceAux, if_neg (by simp [leadsWith,
        cjk_beq_left (all_head h) '-' (by decide)]), ih (all_tail h)]

lemma citeNum_cjk {t : List Char} (h : ∀ c ∈ t, isCJK c = true) :
    citeNum t = t := by
  rw [citeNum]
  generalize t.length + 1 = f
  induction f generalizing t with
  | zero => rfl
  | succ f ih =>
    match t, h with
    | [], _ => rfl
    | c :: r, h =>
      rw [citeNumAux, if_neg (by simp [cjk_beq_right (all_head h) '[' (by decide)]),
        ih (all_tail h)]

lemma isbnStrip_cjk {t : List Char} (h : ∀ c ∈ t, isCJK c = true) :
    isbnStrip t = t := by
  rw [isbnStrip]
  generalize t.length + 1 = f
  induction f generalizing t with
  | zero => rfl
  | succ f ih =>
    match t, h with
    | [], _ => rfl
    | c :: r, h =>
      rw [isbnAux, if_neg (by simp [leadsWith,
        cjk_beq_left (all_head h) 'I' (by decide)]), ih (all_tail h)]

lemma doiStrip_cjk {t : List Char} (h : ∀ c ∈ t, isCJK c = true) :
    doiStrip t = t := by
  rw [doiStrip]
  generalize t.length + 1 = f
  induction f generalizing t with
  | zero => rfl
  | succ f ih =>
    match t, h with
    | [], _ => rfl
    | c :: r, h =>
      rw [doiAux, if_neg (by simp [leadsWith,
        cjk_beq_left (all_head h) 'D' (by decide)]), ih (all_tail h)]

lemma reprintStrip_cjk {t : List Char} (h : ∀ c ∈ t, isCJK c = true) :
    reprintStrip t = t := by
  rw [reprintStrip]
  generalize t.length + 1 = f
  induction f generalizing t with
  | zero => rfl
  | succ f ih =>
    match t, h with
    | [], _ => rfl
    | c :: r, h =>
      rw [reprintAux, if_neg (by simp [List.take_succ_cons, List.all_cons,
        cjk_isDigit (all_head h)]), ih (all_tail h)]

lemma parenEq_cjk {t : List Char} (h : ∀ c ∈ t, isCJK c = true) :
    parenEq t = t := by
  rw [parenEq]
  generalize t.length + 1 = f
  induction f generalizing t with
  | zero => rfl
  | succ f ih =>
    match t, h with
    | [], _ => rfl
    | c :: r, h =>
      rw [parenEqAux, if_neg (by simp [cjk_beq_right (all_head h) '(' (by decide)]),
        ih (all_tail h)]


lemma countLead_head_false {p : Char → Bool} {c : Char} {t : List Char}
    (h : p c = false) : countLead p (c :: t) = 0 := by
  rw [countLead, if_neg (by simp [h])]

lemma countLead_all {p : Char → Bool} {t : List Char}
    (h : ∀ c ∈ t, p c = true) : countLead p t = t.length := by
  induction t with
  | nil => rfl
  | cons c r ih =>
    rw [countLead, if_pos (all_head h), ih (all_tail h)]
    rfl

lemma rightBoundary_cjk {s : List Char} (h : ∀ c ∈ s, isCJK c = true)
    {n : Nat} (hn : n < s.length) : rightBoundary (s.drop n) = false := by
  cases hd : s.drop n with
  | nil =>
    have := congrArg List.length hd
    simp only [List.length_drop, List.length_nil] at this
    omega
  | cons d r2 =>
    have hdm : d ∈ s := List.drop_subset n s (hd ▸ List.mem_cons_self ..)
    rw [rightBoundary, cjk_isWord (h d hdm)]
    rfl

lemma tryImageWord_cjk {c : Char} {r : List Char}
    (h : ∀ d ∈ c :: r, isCJK d = true) (hlen : 10 ≤ (c :: r).length) :
    tryImageWord (c :: r) = none := by
  have halt : ∀ alt ∈ imageAltsBefore, tryImageAlt alt (c :: r) = none := by
    intro alt ha
    have hl : alt.length < (c :: r).length := by
      have : alt.length ≤ 9 := by
        fin_cases ha <;> decide
      omega
    rw [tryImageAlt, if_neg (by simp [rightBoundary_cjk h hl])]
  have halt2 : ∀ alt ∈ imageAltsAfter, tryImageAlt alt (c :: r) = none := by
    intro alt ha
    have hl : alt.length < (c :: r).length := by
      have : alt.length ≤ 3 := by
        fin_cases ha <;> decide
      omega
    rw [tryImageAlt, if_neg (by simp [rightBoundary_cjk h hl])]
  rw [tryImageWord, List.findSome?_eq_none_iff.mpr halt,
    countLead_head_false (cjk_isDigit (all_head h))]
  simp [List.findSome?_eq_none_iff.mpr halt2]

lemma imageWordsAux_word {f : Nat} {t : List Char}
    (h : ∀ c ∈ t, isCJK c = true) : imageWordsAux f true t = t := by
  induction f generalizing t with
  | zero => rfl
  | succ f ih =>
    match t, h with
    | [], _ => rfl
    | c :: r, h =>
      rw [imageWordsAux, if_neg (by simp), cjk_isWord (all_head h),
        ih (all_tail h)]

lemma imageWords_cjk {t : List Char} (h : ∀ c ∈ t, isCJK c = true)
    (hlen : 10 ≤ t.length) : imageWords t = t := by
  rw [imageWords]
  match t, h, hlen with
  | c :: r, h, hlen =>
    rw [imageWordsAux, if_pos (by simp [cjk_isWord (all_head h)]),
      tryImageWord_cjk h hlen, cjk_isWord (all_head h),
      imageWordsAux_word (all_tail h)]

lemma cjk_isAssign {c : Char} (hc : isCJK c = true) : isAssignCh c = true := by
  simp [isAssignCh, cjk_isWord hc]

lemma tryAssign_word_none {c : Char} {r : List Char} (hc : isCJK c = true) :
    tryAssign true (c :: r) = none := by
  have h1 : (!isAssignCh c || (true == isWordChar c)) = true := by
    rw [cjk_isWord hc]
    simp
  rw [tryAssign, if_pos h1]

set_option maxHeartbeats 1000000 in
lemma assignAux_word {f : Nat} {t : List Char}
    (h : ∀ c ∈ t, isCJK c = true) : assignAux f true t = t := by
  induction f generalizing t with
  | zero => rfl
  | succ f ih =>
    match t, h with
    | [], _ => rfl
    | c :: r, h =>
      rw [assignAux, tryAssign_word_none (all_head h), cjk_isWord (all_head h),
        ih (all_tail h)]

lemma tryAssign_long_none {c : Char} {r : List Char}
    (h : ∀ d ∈ c :: r, isCJK d = true) (hlen : 20 < (c :: r).length) :
    tryAssign false (c :: r) = none := by
  have hA : countLead isAssignCh (c :: r) = (c :: r).length :=
    countLead_all (fun d hd => cjk_isAssign (h d hd))
  have h2 : (((c :: r).length == 0) || decide (20 < (c :: r).length)) = true := by
    simp only [Bool.or_eq_true, decide_eq_true_eq]
    exact Or.inr hlen
  rw [tryAssign]
  rw [if_neg (by simp [cjk_isAssign (all_head h), cjk_isWord (all_head h)])]
  simp only [hA, h2, if_true]

lemma assignStrip_cjk {t : List Char} (h : ∀ c ∈ t, isCJK c = true)
    (hlen : 20 < t.length) : assignStrip t = t := by
  rw [assignStrip]
  match t, h, hlen with
  | c :: r, h, hlen =>
    rw [assignAux, tryAssign_long_none h hlen]
    show c :: assignAux (c :: r).length (isWordChar c) r = c :: r
    rw [cjk_isWord (all_head h), @assignAux_word (c :: r).length r (all_tail h)]

lemma parseRef_cjk_none {c : Char} {t : List Char} (h : c ≠ '&') :
    parseRef (c :: t) = none := by
  rw [parseRef.eq_def]
  split
  · next r heq =>
    exfalso
    injection heq with h1 _
    exact h h1
  · next r hk heq =>
    exfalso
    injection heq with h1 _
    exact h h1
  · rfl

lemma unescape_cjk {t : List Char} (h : ∀ c ∈ t, isCJK c = true) :
    unescape t = t := by
  rw [unescape]
  generalize t.length + 1 = f
  induction f generalizing t with
  | zero => rfl
  | succ f ih =>
    match t, h with
    | [], _ => rfl
    | c :: r, h =>
      rw [unescapeAux, parseRef_cjk_none (cjk_ne (all_head h) '&' (by decide)),
        ih (all_tail h)]

lemma entityStage_cjk {t : List Char} (h : ∀ c ∈ t, isCJK c = true) :
    entityStage t = t := by
  rw [entityStage, unescape_cjk h, unescape_cjk h]


lemma contains_false_of_not_mem {l : List Char} {c : Char} (h : c ∉ l) :
    l.contains c = false := by
  simp [h]

lemma splitOnNL_cjk {t : List Char} (h : ∀ c ∈ t, isCJK c = true) :
    splitOnNL t = [t] := by
  induction t with
  | nil => rfl
  | cons c r ih =>
    rw [splitOnNL, if_neg (by simp [cjk_beq_right (all_head h) '\n' (by decide)]),
      ih (all_tail h)]

lemma dropWhile_space_cjk {t : List Char} (h : ∀ c ∈ t, isCJK c = true) :
    t.dropWhile isSpace = t := by
  cases t with
  | nil => rfl
  | cons c r =>
    rw [List.dropWhile_cons, if_neg (by simp [cjk_isSpace (all_head h)])]

lemma stripBoth_cjk {t : List Char} (h : ∀ c ∈ t, isCJK c = true) :
    stripBoth t = t := by
  rw [stripBoth, dropWhile_space_cjk h,
    dropWhile_space_cjk (fun c hc => h c (List.mem_reverse.mp hc)),
    List.reverse_reverse]

lemma count_comma_cjk {t : List Char} (h : ∀ c ∈ t, isCJK c = true) :
    t.count '，' = 0 := by
  rw [List.count_eq_zero]
  intro hm
  exact absurd (h _ hm) (by decide)

lemma isHeading_cjk {c : Char} {r : List Char} (hc : isCJK c = true) :
    isHeading (c :: r) = false := by
  rw [isHeading.eq_def]
  split
  · next t heq =>
    exfalso
    injection heq with h1 _
    exact (cjk_ne hc '=' (by decide)) h1
  · rfl

lemma looksCaption_cjk {t : List Char} (h : ∀ c ∈ t, isCJK c = true) :
    looksCaption t = false := by
  rw [looksCaption, count_comma_cjk h]
  simp

lemma startsBullet_cjk {c : Char} {r : List Char}
    (h : ∀ d ∈ c :: r, isCJK d = true) : startsBullet (c :: r) = false := by
  have hnc : c ∉ bulletMarks := by
    intro hm
    fin_cases hm <;> exact absurd (all_head h) (by decide)
  rw [startsBullet, dropWhile_space_cjk h]
  exact contains_false_of_not_mem hnc

lemma lineKeep_cjk {t : List Char} (h : ∀ c ∈ t, isCJK c = true)
    (hlen : 100 ≤ t.length) : lineKeep t = some t := by
  match t, h, hlen with
  | c :: r, h, hlen =>
    rw [lineKeep, stripBoth_cjk h]
    rw [if_neg (by simp)]
    rw [if_neg (by simp [isHeading_cjk (all_head h)])]
    rw [if_neg (by simp [looksCaption_cjk h])]
    rw [if_neg (by simp only [decide_eq_true_eq]; omega)]
    rw [if_neg (by simp only [cjkCount_all h, decide_eq_true_eq]; omega)]
    rw [if_neg (by simp [startsBullet_cjk h])]

lemma lineStage_cjk {t : List Char} (h : ∀ c ∈ t, isCJK c = true)
    (hlen : 100 ≤ t.length) : lineStage t = t := by
  rw [lineStage, splitOnNL_cjk h]
  rw [show filterLines [t] = [t] by
    rw [filterLines]
    simp [lineKeep_cjk h hlen]]
  rw [joinSp]
  simp

lemma punctA_cjk {t : List Char} (h : ∀ c ∈ t, isCJK c = true) :
    punctA t = t := by
  rw [punctA]
  generalize t.length + 1 = f
  induction f generalizing t with
  | zero => rfl
  | succ f ih =>
    match t, h with
    | [], _ => rfl
    | c :: r, h =>
      have hc := all_head h
      have hcon : pausePunct.contains c = false :=
        contains_false_of_not_mem (by
          intro hm
          fin_cases hm <;> exact absurd hc (by decide))
      simp only [punctAAux, countLead_head_false (cjk_isSpace hc), List.drop_zero,
        hcon, Bool.false_eq_true, if_false]
      rw [ih (all_tail h)]

lemma punctB_cjk {t : List Char} (h : ∀ c ∈ t, isCJK c = true) :
    punctB t = t := by
  rw [punctB]
  generalize t.length + 1 = f
  induction f generalizing t with
  | zero => rfl
  | succ f ih =>
    match t, h with
    | [], _ => rfl
    | c :: r, h =>
      have hnc : c ∉ sentencePunct := by
        intro hm
        fin_cases hm <;> exact absurd (all_head h) (by decide)
      rw [punctBAux, if_neg (by simp [hnc]), ih (all_tail h)]

lemma wsCollapse_cjk {t : List Char} (h : ∀ c ∈ t, isCJK c = true) :
    wsCollapse t = t := by
  rw [wsCollapse]
  generalize t.length + 1 = f
  induction f generalizing t with
  | zero => rfl
  | succ f ih =>
    match t, h with
    | [], _ => rfl
    | c :: r, h =>
      rw [wsCollapseAux, if_neg (by simp [cjk_isSpace (all_head h)]),
        ih (all_tail h)]

lemma symbolStrip_cjk {t : List Char} (h : ∀ c ∈ t, isCJK c = true) :
    symbolStrip t = t := by
  rw [symbolStrip]
  apply List.filter_eq_self.mpr
  intro c hc
  have hnc : c ∉ residSymbols := by
    intro hm
    fin_cases hm <;> exact absurd (h _ hc) (by decide)
  simp [hnc]

lemma punctRun_cjk {t : List Char} (h : ∀ c ∈ t, isCJK c = true) :
    punctRun t = t := by
  rw [punctRun]
  generalize t.length + 1 = f
  induction f generalizing t with
  | zero => rfl
  | succ f ih =>
    match t, h with
    | [], _ => rfl
    | c :: r, h =>
      rw [punctRunAux, if_neg (by
        simp [cjk_beq_right (all_head h) '，' (by decide),
          cjk_beq_right (all_head h) '。' (by decide)]), ih (all_tail h)]

lemma leadPunctStrip_cjk {t : List Char} (h : ∀ c ∈ t, isCJK c = true) :
    leadPunctStrip t = t := by
  match t, h with
  | [], _ => rfl
  | c :: r, h =>
    have hc := all_head h
    have hcon : pausePunct.contains c = false :=
      contains_false_of_not_mem (by
        intro hm
        fin_cases hm <;> exact absurd hc (by decide))
    simp only [leadPunctStrip, countLead_head_false (cjk_isSpace hc),
      List.drop_zero, hcon, Bool.false_eq_true, if_false]

lemma finalGate_cjk {t : List Char} (h : ∀ c ∈ t, isCJK c = true)
    (hlen : 100 ≤ t.length) : finalGate t = t := by
  rw [finalGate, stripBoth_cjk h, if_pos]
  rw [qualityOK, cjkCount_all h]
  simp only [Bool.and_eq_true, decide_eq_true_eq]
  omega

lemma clean_text_fixed {t : List Char} (h : ∀ c ∈ t, isCJK c = true)
    (hkw : hasKw t = false) (hlen : 100 ≤ t.length) : clean_text t = t := by
  have h10 : 10 ≤ t.length := by omega
  have h20 : 20 < t.length := by omega
  simp only [clean_text, cleanAfterTrunc, stagesMid]
  rw [truncAt_id hkw, removeComments_cjk h, dropNested_tpl_id h,
    dropNested_tbl_id h, wikiLinkSub_cjk h, residLinks_cjk h, extLabel_cjk h,
    extBare_cjk h, bareUrl_cjk h, discardStage_cjk h, selfClosingStage_cjk h,
    ignoredStage_cjk h, removeAllTags_cjk h, bi5_cjk h, bi3_cjk h, bi2_cjk h,
    entityStage_cjk h, zhVariant_cjk h, dashBraceStrip_cjk h, citeNum_cjk h,
    isbnStrip_cjk h, doiStrip_cjk h, reprintStrip_cjk h, imageWords_cjk h h10,
    parenEq_cjk h, assignStrip_cjk h h20, lineStage_cjk h hlen, punctA_cjk h,
    punctB_cjk h, wsCollapse_cjk h, symbolStrip_cjk h, punctRun_cjk h,
    leadPunctStrip_cjk h, finalGate_cjk h hlen]

lemma clean_text_min_length {x : List Char} (h : clean_text x ≠ []) :
    100 ≤ (clean_text x).length := by
  have hg := clean_text_gate x
  by_cases hq : qualityOK (preGate x) = true
  · rw [hg, if_pos hq]
    simp only [qualityOK, Bool.and_eq_true, decide_eq_true_eq] at hq
    exact hq.1.1
  · rw [hg, if_neg hq] at h
    exact absurd rfl h

/-- The C2 counterexample input: 100 ideographs followed by `另{{z}}见`;
template removal glues `另` and `见` into the keyword `另见`. -/
def cx : List Char := List.replicate 100 '汉' ++ strOf "另\x7b\x7bz\x7d\x7d见"

set_option maxRecDepth 40000 in
/-- C2 counterexample: cleaning `cx` is accepted, but a second clean
truncates at the freshly created `另见` and returns a shorter text, so
`clean` is not idempotent on its accepted output. -/
theorem clean_text_not_idempotent :
    clean_text cx ≠ [] ∧ clean_text (clean_text cx) ≠ clean_text cx := by
  decide

/-- C2 (amended): `clean(clean x) = clean x` holds whenever the accepted
output consists solely of CJK ideographs and contains no
reference-section keyword; in general markup removal can create a keyword
(or commas/bullets), making a second pass destructive. -/
theorem clean_text_idempotent_amended (x : List Char)
    (hne : clean_text x ≠ []) (hcjk : ∀ c ∈ clean_text x, isCJK c = true)
    (hkw : hasKw (clean_text x) = false) :
    clean_text (clean_text x) = clean_text x :=
  clean_text_fixed hcjk hkw (clean_text_min_length hne)

set_option maxRecDepth 40000 in
/-- An accepted all-ideograph document is returned unchanged. -/
lemma rep100_clean :
    clean_text (List.replicate 100 '汉') = List.replicate 100 '汉' := by decide

/-- Witness for the amended C2 on a 100-ideograph document. -/
theorem clean_text_idempotent_amended_witness :
    clean_text (clean_text (List.replicate 100 '汉'))
      = clean_text (List.replicate 100 '汉') :=
  clean_text_idempotent_amended _ (by rw [rep100_clean]; decide)
    (by rw [rep100_clean]; decide) (by rw [rep100_clean]; decide)


end WikiClean
